import Mathlib

/-!
# Bistro flashlight driver: mode sequencer, persistent store, output ramp and regulation

A shallow embedding of `bistro.c` (with `driver_config_bistro.h` and
`tk-attiny.h`, ATTINY 13 build: `OFFTIM3`, `TEMPERATURE_MON`, `USE_FIRSTBOOT`
and `SOFT_START` defined).  The global variables of the firmware form one
record that every operation takes and returns.  Every `uint8_t` is a natural
number; where C arithmetic can leave the byte range the result is reduced
modulo 256 by `u8`.  Memories (EEPROM, the `g_u8modes` buffer) are functions
from a cell number to the byte stored there.
Signed 8-bit values are integers reduced by `int8`.  Sensor samples and the
calibration thresholds of `tk-calibration.h` are arguments of the operations
that use them; delays have no effect on the state.
-/

namespace Bistro

/-! ## Build-time constants -/

/-- Truncation of an `int` result to `uint8_t`. -/
def u8 (n : Nat) : Nat := n % 256

/-- `#define RAMP_SIZE 64` -/
def RAMP_SIZE : Nat := 64
/-- `#define TURBO RAMP_SIZE` -/
def TURBO : Nat := RAMP_SIZE
/-- `#define BATTCHECK 254` -/
def BATTCHECK : Nat := 254
/-- `#define GROUP_SELECT_MODE 253` -/
def GROUP_SELECT_MODE : Nat := 253
/-- `#define TEMP_CAL_MODE 252` -/
def TEMP_CAL_MODE : Nat := 252
/-- `#define BIKING_STROBE 250` -/
def BIKING_STROBE : Nat := 250
/-- `#define POLICE_STROBE 248` -/
def POLICE_STROBE : Nat := 248
/-- `#define EEPSIZE (64u)`, the ATTINY 13 value. -/
def EEPSIZE : Nat := 64
/-- `#define FIRSTBOOT 0b01010101` -/
def FIRSTBOOT : Nat := 0x55
/-- `#define NUM_MODEGROUPS 9` -/
def NUM_MODEGROUPS : Nat := 9

/-- `PROGMEM const uint8_t hiddenmodes[] = { HIDDENMODES };` -/
def hiddenmodes : List Nat := [BIKING_STROBE, BATTCHECK, POLICE_STROBE, TURBO]

/-- `PROGMEM const uint8_t modegroups[]`: nine rows of eight bytes and the
four-byte muggle row. -/
def modegroups : List Nat := [
    64,  0,  0,  0,  0,  0,  0,  0,
    11, 64,  0,  0,  0,  0,  0,  0,
    11, 35, 64,  0,  0,  0,  0,  0,
    11, 26, 46, 64,  0,  0,  0,  0,
    11, 23, 36, 50, 64,  0,  0,  0,
    11, 20, 31, 41, 53, 64,  0,  0,
    29, 64, POLICE_STROBE, 0, 0, 0, 0, 0,
    BIKING_STROBE, BATTCHECK, 11, 29, 64, 0, 0, 0,
    9, 18, 29, 46, 64,  0,  0,  0,
    11, 29, 50,  0]

/-- `pgm_read_byte(modegroups + i)`.  Every read the firmware makes for a
group number up to `NUM_MODEGROUPS` is inside the table. -/
def pgm_modegroups (i : Nat) : Nat := modegroups.getD i 0

/-- `pgm_read_byte(hiddenmodes + i)`.  The table has four entries; a read at
`hiddenmodes + 4 + k` returns the flash byte that the linker placed `k` bytes
past the end of the table, which the source does not fix: it is the
parameter `past`. -/
def pgm_hiddenmodes (past : Nat → Nat) (i : Nat) : Nat :=
  if i < hiddenmodes.length then hiddenmodes.getD i 0 else past (i - hiddenmodes.length)

/-- The flash contents past `hiddenmodes` when the linker keeps the order of
declaration, so that `modegroups` follows `hiddenmodes` directly. -/
def flash_declared_order (k : Nat) : Nat := modegroups.getD k 0

/-! ## Device state -/

/-- The global variables of `bistro.c` and the EEPROM. -/
structure State where
  /-- `uint8_t g_u8firstboot = FIRSTBOOT;` -/
  g_u8firstboot : Nat
  /-- `uint8_t g_u8modegroup = 5;` -/
  g_u8modegroup : Nat
  /-- `uint8_t enable_moon = 1;` -/
  enable_moon : Nat
  /-- `uint8_t reverse_modes = 0;` -/
  reverse_modes : Nat
  /-- `uint8_t g_u8memory = 0;` -/
  g_u8memory : Nat
  /-- `uint8_t g_u8offtim3 = 1;` -/
  g_u8offtim3 : Nat
  /-- `uint8_t g_u8maxtemp = 79;` -/
  g_u8maxtemp : Nat
  /-- `uint8_t muggle_mode = 0;` -/
  muggle_mode : Nat
  /-- `uint8_t g_u8mode_override = 0;` -/
  g_u8mode_override : Nat
  /-- `uint8_t g_u8mode_idx = 0;` -/
  g_u8mode_idx : Nat
  /-- `uint8_t g_u8eepos = 0;` -/
  g_u8eepos : Nat
  /-- `uint8_t g_u8mode_cnt;` -/
  g_u8mode_cnt : Nat
  /-- `uint8_t g_u8solid_modes;` -/
  g_u8solid_modes : Nat
  /-- `uint8_t g_u8modes[9 + sizeof(hiddenmodes)];`, cells 0..12. -/
  g_u8modes : Nat → Nat
  /-- The EEPROM, cells 0..EEPSIZE-1. -/
  eeprom : Nat → Nat

/-- A store of one byte into a memory: `m[i] = v`. -/
def poke (m : Nat → Nat) (i v : Nat) : Nat → Nat :=
  fun j => if j = i then v else m j

/-- The state of the device when `main` starts: every variable holds its
initialiser (zero for those without one) and the EEPROM holds `e`. -/
def boot (e : Nat → Nat) : State where
  g_u8firstboot := FIRSTBOOT
  g_u8modegroup := 5
  enable_moon := 1
  reverse_modes := 0
  g_u8memory := 0
  g_u8offtim3 := 1
  g_u8maxtemp := 79
  muggle_mode := 0
  g_u8mode_override := 0
  g_u8mode_idx := 0
  g_u8eepos := 0
  g_u8mode_cnt := 0
  g_u8solid_modes := 0
  g_u8modes := fun _ => 0
  eeprom := e

/-! ## Mode sequencer -/

/-- The variables `count_modes` writes, with its two running pointers:
`src` is an offset into the flash table being read and `dest` an offset into
`g_u8modes`. -/
structure ModeBuf where
  /-- Offset of `src` from the start of the table it points into. -/
  src : Nat
  /-- Offset of `dest` from the start of `g_u8modes`. -/
  dest : Nat
  /-- The buffer `g_u8modes`. -/
  g_u8modes : Nat → Nat
  /-- The counter `g_u8solid_modes`. -/
  g_u8solid_modes : Nat
  /-- The counter `g_u8mode_cnt`. -/
  g_u8mode_cnt : Nat

/-- The counting loop of `count_modes`:
`for(g_u8solid_modes=0; (g_u8solid_modes<8) && pgm_read_byte(src); g_u8solid_modes++, src++) *dest++ = pgm_read_byte(src);`
entered with `g_u8solid_modes` already set; `src` points into `modegroups`. -/
def count_solid : Nat → ModeBuf → ModeBuf
  | 0, b => b
  | fuel + 1, b =>
    if b.g_u8solid_modes < 8 ∧ pgm_modegroups b.src ≠ 0 then
      count_solid fuel
        { b with g_u8modes := poke b.g_u8modes b.dest (pgm_modegroups b.src),
                 dest := b.dest + 1,
                 g_u8solid_modes := u8 (b.g_u8solid_modes + 1),
                 src := b.src + 1 }
    else b

/-- The hidden-mode loop of `count_modes`:
`for( src=hiddenmodes; src<hiddenmodes+sizeof(hiddenmodes); src++ ) *dest++ = pgm_read_byte(src);`
entered with `src` already set; `src` points into `hiddenmodes`. -/
def copy_hidden (past : Nat → Nat) : Nat → ModeBuf → ModeBuf
  | 0, b => b
  | fuel + 1, b =>
    if b.src < hiddenmodes.length then
      copy_hidden past fuel
        { b with g_u8modes := poke b.g_u8modes b.dest (pgm_hiddenmodes past b.src),
                 dest := b.dest + 1,
                 src := b.src + 1 }
    else b

/-- The reversal loop of `count_modes`:
`for(i=0; i<g_u8solid_modes; i++) { src --; *dest = pgm_read_byte(src); dest ++; }`
entered with `i` already set.  `src` is still the pointer of the hidden-mode
loop, so it points into `hiddenmodes`. -/
def reverse_copy (past : Nat → Nat) : Nat → Nat → ModeBuf → ModeBuf
  | 0, _, b => b
  | fuel + 1, i, b =>
    if i < b.g_u8solid_modes then
      reverse_copy past fuel (i + 1)
        { b with src := b.src - 1,
                 g_u8modes := poke b.g_u8modes b.dest (pgm_hiddenmodes past (b.src - 1)),
                 dest := b.dest + 1 }
    else b

/-- The body of `count_modes` as a function of the four configuration bytes
it reads and of the variables it writes.  The three loops run at most 8, 4
and 8 times, which is the fuel given to them. -/
def count_modes_body (past : Nat → Nat) (g_u8modegroup enable_moon reverse_modes muggle_mode : Nat)
    (g_u8modes : Nat → Nat) (g_u8solid_modes g_u8mode_cnt : Nat) : ModeBuf :=
  -- copy config to local vars; override config if we are in simple mode
  let my_modegroup := if muggle_mode ≠ 0 then NUM_MODEGROUPS else g_u8modegroup
  let my_enable_moon := if muggle_mode ≠ 0 then 0 else enable_moon
  let my_reverse_modes := if muggle_mode ≠ 0 then 0 else reverse_modes
  -- src = modegroups + (my_modegroup<<3); dest = g_u8modes;
  let b0 : ModeBuf :=
    { src := my_modegroup <<< 3, dest := 0, g_u8modes := g_u8modes,
      g_u8solid_modes := g_u8solid_modes, g_u8mode_cnt := g_u8mode_cnt }
  -- add moon mode (or not) if config says to add it
  let b1 := if my_enable_moon ≠ 0 then
      { b0 with g_u8modes := poke b0.g_u8modes 0 1, dest := b0.dest + 1 }
    else b0
  -- count and copy the solid modes
  let b2 := count_solid 8 { b1 with g_u8solid_modes := 0 }
  -- add hidden modes
  let b3 := copy_hidden past 4 { b2 with src := 0 }
  -- final count
  let b4 := { b3 with g_u8mode_cnt := u8 (b3.g_u8solid_modes + hiddenmodes.length) }
  let b7 :=
    if my_reverse_modes ≠ 0 then
      -- src += g_u8solid_modes; dest = g_u8modes;
      let b5 := reverse_copy past 8 0 { b4 with src := b4.src + b4.g_u8solid_modes, dest := 0 }
      let b6 := if my_enable_moon ≠ 0 then { b5 with g_u8modes := poke b5.g_u8modes b5.dest 1 } else b5
      -- get rid of last hidden mode, since it is a duplicate turbo
      { b6 with g_u8mode_cnt := u8 (b6.g_u8mode_cnt + 255) }
    else b4
  if my_enable_moon ≠ 0 then
    { b7 with g_u8mode_cnt := u8 (b7.g_u8mode_cnt + 1),
              g_u8solid_modes := u8 (b7.g_u8solid_modes + 1) }
  else b7

/-- `void count_modes()`: the body run on the global variables. -/
def count_modes (past : Nat → Nat) (s : State) : State :=
  let b := count_modes_body past s.g_u8modegroup s.enable_moon s.reverse_modes s.muggle_mode
    s.g_u8modes s.g_u8solid_modes s.g_u8mode_cnt
  { s with g_u8modes := b.g_u8modes,
           g_u8solid_modes := b.g_u8solid_modes,
           g_u8mode_cnt := b.g_u8mode_cnt }

/-- The active mode list: the first `g_u8mode_cnt` cells of `g_u8modes`. -/
def ActiveModeList (s : State) : List Nat :=
  (List.range s.g_u8mode_cnt).map s.g_u8modes

/-- `static inline void next_mode()` -/
def next_mode (s : State) : State :=
  let s1 := { s with g_u8mode_idx := u8 (s.g_u8mode_idx + 1) }
  if s1.g_u8mode_idx ≥ s1.g_u8solid_modes then
    -- Wrap around, skipping the hidden modes
    { s1 with g_u8mode_idx := 0 }
  else s1

/-- `static inline void prev_mode()` -/
def prev_mode (s : State) : State :=
  -- simple mode has no reverse
  if s.muggle_mode ≠ 0 then next_mode s
  else if s.g_u8mode_idx = s.g_u8solid_modes then
    { s with g_u8mode_idx := 0 }
  else if s.g_u8mode_idx > 0 then
    { s with g_u8mode_idx := u8 (s.g_u8mode_idx + 255) }
  else
    { s with g_u8mode_idx := u8 (s.g_u8mode_cnt + 255) }

/-- The levels of row `g` of `modegroups` up to its zero terminator: the
first eight bytes from offset `8 * g`, cut at the first zero. -/
def solid_levels (g : Nat) : List Nat :=
  ((modegroups.drop (8 * g)).take 8).takeWhile (fun x => x != 0)

/-- Number of solid levels of row `g`. -/
def solid_count (g : Nat) : Nat := (solid_levels g).length

/-- The group in force: the muggle row when `muggle_mode` is set. -/
def effective_group (s : State) : Nat :=
  if s.muggle_mode ≠ 0 then NUM_MODEGROUPS else s.g_u8modegroup

/-- Moon is in force when `enable_moon` is set and `muggle_mode` is not. -/
def effective_moon (s : State) : Bool := s.muggle_mode == 0 && s.enable_moon != 0

/-- Reversal is in force when `reverse_modes` is set and `muggle_mode` is not. -/
def effective_reverse (s : State) : Bool := s.muggle_mode == 0 && s.reverse_modes != 0

/-! ## Persistent store -/

/-- `eeprom_read_byte((uint8_t *)addr)` -/
def eeprom_read_byte (e : Nat → Nat) (addr : Nat) : Nat := e addr

/-- `eeprom_write_byte((uint8_t *)addr, v)` -/
def eeprom_write_byte (e : Nat → Nat) (addr v : Nat) : Nat → Nat := poke e addr v

/-- `#define OPT_firstboot (EEPSIZE-1)` -/
def OPT_firstboot : Nat := EEPSIZE - 1
/-- `#define OPT_modegroup (EEPSIZE-2)` -/
def OPT_modegroup : Nat := EEPSIZE - 2
/-- `#define OPT_memory (EEPSIZE-3)` -/
def OPT_memory : Nat := EEPSIZE - 3
/-- `#define OPT_offtim3 (EEPSIZE-4)` -/
def OPT_offtim3 : Nat := EEPSIZE - 4
/-- `#define OPT_maxtemp (EEPSIZE-5)` -/
def OPT_maxtemp : Nat := EEPSIZE - 5
/-- `#define OPT_mode_override (EEPSIZE-6)` -/
def OPT_mode_override : Nat := EEPSIZE - 6
/-- `#define OPT_moon (EEPSIZE-7)` -/
def OPT_moon : Nat := EEPSIZE - 7
/-- `#define OPT_revmodes (EEPSIZE-8)` -/
def OPT_revmodes : Nat := EEPSIZE - 8
/-- `#define OPT_muggle (EEPSIZE-9)` -/
def OPT_muggle : Nat := EEPSIZE - 9

/-- `void save_mode()`: save the current mode index (with wear leveling). -/
def save_mode (s : State) : State :=
  let oldpos := s.g_u8eepos
  -- wear leveling, use next cell
  let newpos := u8 ((s.g_u8eepos + 1) &&& ((EEPSIZE / 2) - 1))
  -- save current state, then erase old state
  { s with g_u8eepos := newpos,
           eeprom := eeprom_write_byte (eeprom_write_byte s.eeprom newpos s.g_u8mode_idx) oldpos 0xff }

/-- `void save_state()`: central method for writing complete state. -/
def save_state (s : State) : State :=
  let s1 := save_mode s
  let e1 := eeprom_write_byte s1.eeprom OPT_firstboot s1.g_u8firstboot
  let e2 := eeprom_write_byte e1 OPT_modegroup s1.g_u8modegroup
  let e3 := eeprom_write_byte e2 OPT_memory s1.g_u8memory
  let e4 := eeprom_write_byte e3 OPT_offtim3 s1.g_u8offtim3
  let e5 := eeprom_write_byte e4 OPT_maxtemp s1.g_u8maxtemp
  let e6 := eeprom_write_byte e5 OPT_mode_override s1.g_u8mode_override
  let e7 := eeprom_write_byte e6 OPT_moon s1.enable_moon
  let e8 := eeprom_write_byte e7 OPT_revmodes s1.reverse_modes
  let e9 := eeprom_write_byte e8 OPT_muggle s1.muggle_mode
  { s1 with eeprom := e9 }

/-- The scan of `restore_state`:
`for(g_u8eepos=0; g_u8eepos<(EEPSIZE/2); g_u8eepos++) { eep = eeprom_read_byte(g_u8eepos); if (eep != 0xff) { g_u8mode_idx = eep; break; } }`
entered with `g_u8eepos` already set.  The arguments after the fuel are
`g_u8eepos` and `g_u8mode_idx`, and the result is their values at loop exit. -/
def restore_scan (e : Nat → Nat) : Nat → Nat → Nat → Nat × Nat
  | 0, g_u8eepos, g_u8mode_idx => (g_u8eepos, g_u8mode_idx)
  | fuel + 1, g_u8eepos, g_u8mode_idx =>
    if g_u8eepos < EEPSIZE / 2 then
      if eeprom_read_byte e g_u8eepos ≠ 0xff then
        (g_u8eepos, eeprom_read_byte e g_u8eepos)
      else restore_scan e fuel (u8 (g_u8eepos + 1)) g_u8mode_idx
    else (g_u8eepos, g_u8mode_idx)

/-- `void restore_state()`.  The scan runs at most `EEPSIZE/2` times, which
is the fuel given to it. -/
def restore_state (s : State) : State :=
  -- check if this is the first time we have powered on
  if eeprom_read_byte s.eeprom OPT_firstboot ≠ FIRSTBOOT then
    save_state s
  else
    -- find the mode index data
    let r := restore_scan s.eeprom (EEPSIZE / 2) 0 s.g_u8mode_idx
    -- load other config values
    { s with g_u8eepos := r.1,
             g_u8mode_idx := r.2,
             g_u8modegroup := eeprom_read_byte s.eeprom OPT_modegroup,
             g_u8memory := eeprom_read_byte s.eeprom OPT_memory,
             g_u8offtim3 := eeprom_read_byte s.eeprom OPT_offtim3,
             g_u8maxtemp := eeprom_read_byte s.eeprom OPT_maxtemp,
             g_u8mode_override := eeprom_read_byte s.eeprom OPT_mode_override,
             enable_moon := eeprom_read_byte s.eeprom OPT_moon,
             reverse_modes := eeprom_read_byte s.eeprom OPT_revmodes,
             muggle_mode := eeprom_read_byte s.eeprom OPT_muggle }

/-- A run of `save_mode` calls, one for each value of the list in turn, each
made after `g_u8mode_idx` has been set to that value. -/
def save_modes (vs : List Nat) (s : State) : State :=
  vs.foldl (fun t v => save_mode { t with g_u8mode_idx := v }) s

/-- Every slot of the rotating region (cells below `EEPSIZE/2`) other than
cell `pos` is erased. -/
def erased_except (e : Nat → Nat) (pos : Nat) : Prop :=
  ∀ a, a < EEPSIZE / 2 → a ≠ pos → e a = 0xff

/-! ## Output ramp controller -/

/-- `PROGMEM const uint8_t ramp_7135[] = { RAMP_7135 };`, the x**3 curve of
`driver_config_bistro.h`. -/
def ramp_7135 : List Nat := [
    3, 3, 4, 5, 6, 8, 10, 12, 15, 19, 23, 28, 33, 40, 47, 55,
    63, 73, 84, 95, 108, 122, 137, 153, 171, 190, 210, 232, 255, 255, 255, 255,
    255, 255, 255, 255, 255, 255, 255, 255, 255, 255, 255, 255, 255, 255, 255, 255,
    255, 255, 255, 255, 255, 255, 255, 255, 255, 255, 255, 255, 255, 255, 255, 0]

/-- `PROGMEM const uint8_t ramp_FET[] = { RAMP_FET };`, the x**3 curve of
`driver_config_bistro.h`. -/
def ramp_FET : List Nat := [
    0, 0, 0, 0, 0, 0, 0, 0, 0, 0, 0, 0, 0, 0, 0, 0,
    0, 0, 0, 0, 0, 0, 0, 0, 0, 0, 0, 0, 0, 2, 5, 8,
    11, 14, 18, 22, 26, 30, 34, 39, 44, 49, 54, 59, 65, 71, 77, 84,
    91, 98, 105, 113, 121, 129, 137, 146, 155, 164, 174, 184, 194, 205, 216, 255]

/-- `#define BLINK_BRIGHTNESS RAMP_SIZE/4` -/
def BLINK_BRIGHTNESS : Nat := RAMP_SIZE / 4

/-- The two PWM compare registers: `PWM_LVL` (OCR0B, the FET channel) and
`ALT_PWM_LVL` (OCR0A, the 7135 channel). -/
structure Pwm where
  /-- `PWM_LVL`, duty of the FET channel. -/
  PWM_LVL : Nat
  /-- `ALT_PWM_LVL`, duty of the 7135 channel. -/
  ALT_PWM_LVL : Nat
deriving DecidableEq

/-- `static inline void set_output(uint8_t pwm1, uint8_t pwm2)`: both
registers are overwritten. -/
def set_output (pwm1 pwm2 : Nat) : Pwm :=
  { PWM_LVL := pwm1, ALT_PWM_LVL := pwm2 }

/-- The body of `set_level` reading the tables `fet` and `a7135` in place of
`ramp_FET` and `ramp_7135`.  A level above the table length reads past the
table; no use of the firmware covered here does so, and such a read gives 0
in this model. -/
def set_level_from (fet a7135 : List Nat) (level : Nat) : Pwm :=
  if level = 0 then
    set_output 0 0
  else
    -- level -= 1;
    set_output (fet.getD (u8 (level + 255)) 0) (a7135.getD (u8 (level + 255)) 0)

/-- `void set_level(uint8_t level)` -/
def set_level (level : Nat) : Pwm := set_level_from ramp_FET ramp_7135 level

/-- Conversion of an `int` to `int8_t` (modulo 256, as avr-gcc does). -/
def int8 (n : Int) : Int := (n + 128) % 256 - 128

/-- One pass through the body of the do-while loop of `set_mode`, up to the
new value of its static `actual_level`:
`diff = target_level - actual_level; shift_amount = (diff >> 2) | (diff!=0); actual_level += shift_amount;`
with `diff` and `shift_amount` of type `int8_t`. -/
def set_mode_tick (target_level actual_level : Nat) : Nat :=
  let diff : Int := int8 ((target_level : Int) - (actual_level : Int))
  let shift_amount : Int := int8 (Int.lor (Int.shiftRight diff 2) (if diff ≠ 0 then 1 else 0))
  (((actual_level : Int) + shift_amount) % 256).toNat

/-- The do-while loop of `set_mode`:
`do { ...; set_level(actual_level); _delay_ms(RAMP_SIZE/4); } while (target_level != actual_level);`
on the static `actual_level` and the PWM registers. -/
def set_mode_loop (target_level : Nat) : Nat → Nat → Pwm → Nat × Pwm
  | 0, actual_level, pwm => (actual_level, pwm)
  | fuel + 1, actual_level, _ =>
    if target_level ≠ set_mode_tick target_level actual_level then
      set_mode_loop target_level fuel (set_mode_tick target_level actual_level)
        (set_level (set_mode_tick target_level actual_level))
    else
      (set_mode_tick target_level actual_level,
        set_level (set_mode_tick target_level actual_level))

/-! ## The running device -/

/-- The device while `main` runs: the global variables and EEPROM, the PWM
registers, the static `actual_level` of `set_mode`, the counter
`g_u8fast_presses` (kept in `.noinit`, so not set at boot), the locals of
`main` used by the regulation loop, and whether the processor has been put
into power-down sleep. -/
structure Main where
  /-- The global variables and the EEPROM. -/
  g : State
  /-- The PWM registers. -/
  pwm : Pwm
  /-- `static uint8_t actual_level` of `set_mode`: the level rendered last. -/
  rendered : Nat
  /-- `uint8_t g_u8fast_presses` -/
  g_u8fast_presses : Nat
  /-- `uint8_t output` of `main`: the level the user asked for. -/
  output : Nat
  /-- `uint8_t actual_level` of `main`: the level regulation allows. -/
  actual_level : Nat
  /-- `uint8_t overheat_count` of `main`. -/
  overheat_count : Nat
  /-- `uint8_t lowbatt_cnt` of `main`. -/
  lowbatt_cnt : Nat
  /-- Set once `sleep_mode()` has been entered in power-down mode with no
  wake-up source enabled: nothing runs after that. -/
  halted : Bool

/-- `void set_mode(uint8_t mode)` with `SOFT_START`.  The loop is given 256
passes of fuel. -/
def set_mode (mode : Nat) (m : Main) : Main :=
  { m with rendered := (set_mode_loop mode 256 m.rendered m.pwm).1,
           pwm := (set_mode_loop mode 256 m.rendered m.pwm).2 }

/-- `void blink(uint8_t val, uint16_t speed)`:
`for (; val>0; val--) { set_level(BLINK_BRIGHTNESS); _delay_ms(speed); set_level(0); _delay_ms(speed); _delay_ms(speed); }`.
Delays have no effect on the state, so `speed` is not an argument. -/
def blink : Nat → Main → Main
  | 0, m => m
  | val + 1, m =>
    blink val { ({ m with pwm := set_level BLINK_BRIGHTNESS } : Main) with pwm := set_level 0 }

/-- The press-time check of `main`, between `count_modes()` and the
`save_mode()` that follows it.  `cap_val` is the off-time capacitor sample
taken by `read_otc()`; the thresholds `CAP_SHORT` and `CAP_MED` come from
`tk-calibration.h` and are parameters here. -/
def press_navigate (CAP_SHORT CAP_MED cap_val : Nat) (m : Main) : Main :=
  -- check button press time, unless the mode is overridden
  if m.g.g_u8mode_override = 0 then
    if cap_val > CAP_SHORT then
      -- short press, go to the next mode
      { m with g_u8fast_presses := u8 ((m.g_u8fast_presses + 1) &&& 0x1f),
               g := next_mode m.g }
    else if cap_val > CAP_MED then
      -- medium press, go back one mode
      if m.g.g_u8offtim3 ≠ 0 then
        { m with g_u8fast_presses := 0, g := prev_mode m.g }
      else
        { m with g_u8fast_presses := 0, g := next_mode m.g }
    else
      -- long press, keep the same mode ... or reset to the first mode
      if m.g.muggle_mode ≠ 0 ∨ m.g.g_u8memory = 0 then
        { m with g_u8fast_presses := 0, g := { m.g with g_u8mode_idx := 0 } }
      else
        { m with g_u8fast_presses := 0 }
  else m

/-- The configuration variables that the `uint8_t *var` argument of `toggle`
can point to. -/
inductive ConfigVar where
  | g_u8firstboot
  | g_u8modegroup
  | g_u8memory
  | g_u8offtim3
  | g_u8maxtemp
  | g_u8mode_override
  | enable_moon
  | reverse_modes
  | muggle_mode
deriving DecidableEq

/-- The value `*var`. -/
def ConfigVar.get : ConfigVar → State → Nat
  | .g_u8firstboot, s => s.g_u8firstboot
  | .g_u8modegroup, s => s.g_u8modegroup
  | .g_u8memory, s => s.g_u8memory
  | .g_u8offtim3, s => s.g_u8offtim3
  | .g_u8maxtemp, s => s.g_u8maxtemp
  | .g_u8mode_override, s => s.g_u8mode_override
  | .enable_moon, s => s.enable_moon
  | .reverse_modes, s => s.reverse_modes
  | .muggle_mode, s => s.muggle_mode

/-- The assignment `*var = x`. -/
def ConfigVar.set : ConfigVar → Nat → State → State
  | .g_u8firstboot, x, s => { s with g_u8firstboot := x }
  | .g_u8modegroup, x, s => { s with g_u8modegroup := x }
  | .g_u8memory, x, s => { s with g_u8memory := x }
  | .g_u8offtim3, x, s => { s with g_u8offtim3 := x }
  | .g_u8maxtemp, x, s => { s with g_u8maxtemp := x }
  | .g_u8mode_override, x, s => { s with g_u8mode_override := x }
  | .enable_moon, x, s => { s with enable_moon := x }
  | .reverse_modes, x, s => { s with reverse_modes := x }
  | .muggle_mode, x, s => { s with muggle_mode := x }

/-- The EEPROM address at which `save_state` stores the variable. -/
def ConfigVar.addr : ConfigVar → Nat
  | .g_u8firstboot => OPT_firstboot
  | .g_u8modegroup => OPT_modegroup
  | .g_u8memory => OPT_memory
  | .g_u8offtim3 => OPT_offtim3
  | .g_u8maxtemp => OPT_maxtemp
  | .g_u8mode_override => OPT_mode_override
  | .enable_moon => OPT_moon
  | .reverse_modes => OPT_revmodes
  | .muggle_mode => OPT_muggle

/-- The first half of `toggle(var, num)`, up to the start of the acceptance
window: `blink(num, BLINK_SPEED/8); *var ^= 1; save_state();`. -/
def toggle_commit (var : ConfigVar) (num : Nat) (m : Main) : Main :=
  { blink num m with g := save_state (var.set (var.get (blink num m).g ^^^ 1) (blink num m).g) }

/-- `void toggle(uint8_t *var, uint8_t num)`: the first half, then
`blink(32, 500/32); *var ^= 1; save_state(); _delay_s();`. -/
def toggle (var : ConfigVar) (num : Nat) (m : Main) : Main :=
  { blink 32 (toggle_commit var num m) with
    g := save_state (var.set (var.get (blink 32 (toggle_commit var num m)).g ^^^ 1)
            (blink 32 (toggle_commit var num m)).g) }

/-! ## Regulation loop -/

/-- The thermal decision of the steady-mode branch of the main loop, on the
sample `temp` returned by `get_temp()`:
`if (temp >= g_u8maxtemp) { overheat_count ++; if ((overheat_count > 15) && (actual_level > (RAMP_SIZE/8))) { actual_level --; overheat_count = 0; } } else { overheat_count = 0; if ((temp < g_u8maxtemp - 2) && (actual_level < output)) { actual_level ++; } }` -/
def thermal_adjust (temp : Nat) (m : Main) : Main :=
  -- step down? (or step back up?)
  if temp ≥ m.g.g_u8maxtemp then
    -- reduce noise, and limit the lowest step-down level
    if u8 (m.overheat_count + 1) > 15 ∧ m.actual_level > RAMP_SIZE / 8 then
      { m with actual_level := u8 (m.actual_level + 255), overheat_count := 0 }
    else
      { m with overheat_count := u8 (m.overheat_count + 1) }
  else
    -- if we are not overheated, ramp up to the user-requested level
    if (temp : Int) < (m.g.g_u8maxtemp : Int) - 2 ∧ m.actual_level < m.output then
      { m with overheat_count := 0, actual_level := u8 (m.actual_level + 1) }
    else
      { m with overheat_count := 0 }

/-- The steady-mode branch of the main loop (`else { // Regular non-hidden
solid mode`): `set_mode(actual_level)`, the thermal decision, and
`set_mode(actual_level)` again. -/
def thermal_step (temp : Nat) (m : Main) : Main :=
  set_mode (thermal_adjust temp (set_mode m.actual_level m)).actual_level
    (thermal_adjust temp (set_mode m.actual_level m))

/-- The end of a battery step-down that does not halt:
`set_mode(actual_level); output = actual_level; lowbatt_cnt = 0; _delay_s();` -/
def battery_finish (m : Main) : Main :=
  { set_mode m.actual_level m with output := m.actual_level, lowbatt_cnt := 0 }

/-- The battery step of the main loop (`#ifdef VOLTAGE_MON`).  `reading` is
`none` when no conversion is complete (`ADCSRA & (1 << ADIF)` is zero) and
the waiting value of `ADCH` otherwise.  The threshold `ADC_LOW` comes from
`tk-calibration.h` and is a parameter here. -/
def battery_step (ADC_LOW : Nat) (reading : Option Nat) (m : Main) : Main :=
  match reading with
  | none => m
  | some voltage =>
    -- See if voltage is lower than what we were looking for
    if (if voltage < ADC_LOW then u8 (m.lowbatt_cnt + 1) else 0) ≥ 8 then
      -- See if it has been low for a while, and maybe step down
      if m.actual_level > RAMP_SIZE then
        -- step down from blinky modes to medium
        battery_finish
          { m with lowbatt_cnt := if voltage < ADC_LOW then u8 (m.lowbatt_cnt + 1) else 0,
                   actual_level := RAMP_SIZE / 2 }
      else if m.actual_level > 1 then
        -- step down from solid modes somewhat gradually
        battery_finish
          { m with lowbatt_cnt := if voltage < ADC_LOW then u8 (m.lowbatt_cnt + 1) else 0,
                   actual_level := u8 ((m.actual_level >>> 2) + (m.actual_level >>> 1)) }
      else
        -- Already at the lowest mode: turn off the light and power down
        { m with lowbatt_cnt := if voltage < ADC_LOW then u8 (m.lowbatt_cnt + 1) else 0,
                 pwm := set_level 0,
                 halted := true }
    else
      { m with lowbatt_cnt := if voltage < ADC_LOW then u8 (m.lowbatt_cnt + 1) else 0 }

/-- One pass of the main loop through the steady-mode branch: the thermal
step, `g_u8fast_presses = 0;`, and the battery step.  Nothing runs once the
processor is halted. -/
def steady_iteration (ADC_LOW temp : Nat) (reading : Option Nat) (m : Main) : Main :=
  if m.halted then m
  else battery_step ADC_LOW reading { thermal_step temp m with g_u8fast_presses := 0 }

/-- Consecutive thermal steps, one for each temperature sample of the list. -/
def thermal_run (temps : List Nat) (m : Main) : Main :=
  temps.foldl (fun t temp => thermal_step temp t) m

/-- Consecutive battery steps, one for each reading of the list, stopping
when the processor halts. -/
def battery_run (ADC_LOW : Nat) (readings : List (Option Nat)) (m : Main) : Main :=
  readings.foldl (fun t r => if t.halted then t else battery_step ADC_LOW r t) m

/-- The RAM configuration and mode index hold the built-in defaults: group
5, moon 1, reverse 0, memory 0, offtim3 1, maxtemp 79, muggle 0, override 0,
index 0, and the first-boot marker. -/
def has_defaults (s : State) : Prop :=
  s.g_u8firstboot = FIRSTBOOT ∧ s.g_u8modegroup = 5 ∧ s.enable_moon = 1 ∧ s.reverse_modes = 0
  ∧ s.g_u8memory = 0 ∧ s.g_u8offtim3 = 1 ∧ s.g_u8maxtemp = 79 ∧ s.muggle_mode = 0
  ∧ s.g_u8mode_override = 0 ∧ s.g_u8mode_idx = 0

/-- The store holds the sentinel and the built-in defaults at the nine
configuration addresses. -/
def stores_defaults (e : Nat → Nat) : Prop :=
  e OPT_firstboot = FIRSTBOOT ∧ e OPT_modegroup = 5 ∧ e OPT_moon = 1 ∧ e OPT_revmodes = 0
  ∧ e OPT_memory = 0 ∧ e OPT_offtim3 = 1 ∧ e OPT_maxtemp = 79 ∧ e OPT_muggle = 0
  ∧ e OPT_mode_override = 0

/-- The state in which `main` enters its loop, from the globals `s` left by
the boot sequence and the value `fp` of `g_u8fast_presses`:
`output = g_u8modes[g_u8mode_idx]; actual_level = output; if (g_u8mode_override) { g_u8fast_presses = 0; output = g_u8mode_idx; }`
with both counters 0, the PWM registers and the static level of `set_mode`
at their reset value 0. -/
def main_locals (s : State) (fp : Nat) : Main where
  g := s
  pwm := set_output 0 0
  rendered := 0
  g_u8fast_presses := if s.g_u8mode_override ≠ 0 then 0 else fp
  output := if s.g_u8mode_override ≠ 0 then s.g_u8mode_idx else s.g_u8modes s.g_u8mode_idx
  actual_level := s.g_u8modes s.g_u8mode_idx
  overheat_count := 0
  lowbatt_cnt := 0
  halted := false

/-! ## Instrumented loops and derived notions -/

/-- The levels `set_mode` renders, in order: one entry for each pass of its
do-while loop, that is for each call of `set_level` it makes.  The recursion
is that of `set_mode_loop`. -/
def set_mode_trace (target_level : Nat) : Nat → Nat → List Nat
  | 0, _ => []
  | fuel + 1, actual_level =>
    if target_level ≠ set_mode_tick target_level actual_level then
      set_mode_tick target_level actual_level
        :: set_mode_trace target_level fuel (set_mode_tick target_level actual_level)
    else
      [set_mode_tick target_level actual_level]

/-- The level a battery step-down gives from a solid level:
`actual_level = (actual_level >> 2) + (actual_level >> 1);` -/
def battery_dim (actual_level : Nat) : Nat :=
  u8 ((actual_level >>> 2) + (actual_level >>> 1))

/-- The rotating region holds at most one non-erased slot. -/
def at_most_one_slot (e : Nat → Nat) : Prop :=
  ∀ a, a < EEPSIZE / 2 → ∀ b, b < EEPSIZE / 2 → e a ≠ 0xff → e b ≠ 0xff → a = b

/-- The nine configuration addresses, `OPT_firstboot` down to `OPT_muggle`. -/
def OPT_addresses : List Nat :=
  [OPT_firstboot, OPT_modegroup, OPT_memory, OPT_offtim3, OPT_maxtemp, OPT_mode_override,
   OPT_moon, OPT_revmodes, OPT_muggle]

/-- The size of the buffer `uint8_t g_u8modes[9 + sizeof(hiddenmodes)]`. -/
def g_u8modes_size : Nat := 9 + hiddenmodes.length

/-- An entry of the mode list that the main loop can display: a level in
1..RAMP_SIZE, rendered through the ramp tables, or one of the effect codes
it dispatches before rendering. -/
def displayable (x : Nat) : Bool :=
  (decide (1 ≤ x) && decide (x ≤ RAMP_SIZE)) || x == BIKING_STROBE || x == BATTCHECK
    || x == POLICE_STROBE

/-- The cells of `g_u8modes` written by the counting loop of `count_modes`,
in order; the recursion is that of `count_solid`. -/
def count_solid_writes : Nat → ModeBuf → List Nat
  | 0, _ => []
  | fuel + 1, b =>
    if b.g_u8solid_modes < 8 ∧ pgm_modegroups b.src ≠ 0 then
      b.dest :: count_solid_writes fuel
        { b with g_u8modes := poke b.g_u8modes b.dest (pgm_modegroups b.src),
                 dest := b.dest + 1,
                 g_u8solid_modes := u8 (b.g_u8solid_modes + 1),
                 src := b.src + 1 }
    else []

/-- The cells of `g_u8modes` written by the hidden-mode loop of
`count_modes`, in order; the recursion is that of `copy_hidden`. -/
def copy_hidden_writes (past : Nat → Nat) : Nat → ModeBuf → List Nat
  | 0, _ => []
  | fuel + 1, b =>
    if b.src < hiddenmodes.length then
      b.dest :: copy_hidden_writes past fuel
        { b with g_u8modes := poke b.g_u8modes b.dest (pgm_hiddenmodes past b.src),
                 dest := b.dest + 1,
                 src := b.src + 1 }
    else []

/-- The cells of `g_u8modes` written by the reversal loop of `count_modes`,
in order; the recursion is that of `reverse_copy`. -/
def reverse_copy_writes (past : Nat → Nat) : Nat → Nat → ModeBuf → List Nat
  | 0, _, _ => []
  | fuel + 1, i, b =>
    if i < b.g_u8solid_modes then
      b.dest :: reverse_copy_writes past fuel (i + 1)
        { b with src := b.src - 1,
                 g_u8modes := poke b.g_u8modes b.dest (pgm_hiddenmodes past (b.src - 1)),
                 dest := b.dest + 1 }
    else []

/-- Every cell of `g_u8modes` that `count_modes` writes, in order.  The
intermediate values are those of `count_modes_body`. -/
def count_modes_writes (past : Nat → Nat) (g_u8modegroup enable_moon reverse_modes muggle_mode : Nat)
    (g_u8modes : Nat → Nat) (g_u8solid_modes g_u8mode_cnt : Nat) : List Nat :=
  let my_modegroup := if muggle_mode ≠ 0 then NUM_MODEGROUPS else g_u8modegroup
  let my_enable_moon := if muggle_mode ≠ 0 then 0 else enable_moon
  let my_reverse_modes := if muggle_mode ≠ 0 then 0 else reverse_modes
  let b0 : ModeBuf :=
    { src := my_modegroup <<< 3, dest := 0, g_u8modes := g_u8modes,
      g_u8solid_modes := g_u8solid_modes, g_u8mode_cnt := g_u8mode_cnt }
  -- g_u8modes[0] = 1;
  let b1 := if my_enable_moon ≠ 0 then
      { b0 with g_u8modes := poke b0.g_u8modes 0 1, dest := b0.dest + 1 }
    else b0
  let b2 := count_solid 8 { b1 with g_u8solid_modes := 0 }
  let b3 := copy_hidden past 4 { b2 with src := 0 }
  let b4 := { b3 with g_u8mode_cnt := u8 (b3.g_u8solid_modes + hiddenmodes.length) }
  let b5 := reverse_copy past 8 0 { b4 with src := b4.src + b4.g_u8solid_modes, dest := 0 }
  (if my_enable_moon ≠ 0 then [0] else [])
    ++ count_solid_writes 8 { b1 with g_u8solid_modes := 0 }
    ++ copy_hidden_writes past 4 { b2 with src := 0 }
    ++ (if my_reverse_modes ≠ 0 then
          reverse_copy_writes past 8 0 { b4 with src := b4.src + b4.g_u8solid_modes, dest := 0 }
            -- *dest = 1;
            ++ (if my_enable_moon ≠ 0 then [b5.dest] else [])
        else [])

/-- The loop of the GROUP_SELECT_MODE branch of the main loop:
`for(i=0; i<NUM_MODEGROUPS; i++) { g_u8modegroup = i; save_state(); blink(1, BLINK_SPEED/3); }`
entered with `i` already set.  The result is the list of the stores left by
the successive calls of `save_state`, in order, and the device after the
loop. -/
def group_select_loop : Nat → Nat → Main → List (Nat → Nat) × Main
  | 0, _, m => ([], m)
  | fuel + 1, i, m =>
    if i < NUM_MODEGROUPS then
      ((save_state { m.g with g_u8modegroup := i }).eeprom
          :: (group_select_loop fuel (u8 (i + 1))
                (blink 1 { m with g := save_state { m.g with g_u8modegroup := i } })).1,
        (group_select_loop fuel (u8 (i + 1))
          (blink 1 { m with g := save_state { m.g with g_u8modegroup := i } })).2)
    else ([], m)

/-- The GROUP_SELECT_MODE branch of the main loop:
`g_u8mode_idx = 0; g_u8mode_override = 0;`, the loop over the groups, and two
delays.  The loop is given `NUM_MODEGROUPS` passes of fuel. -/
def group_select (m : Main) : List (Nat → Nat) × Main :=
  group_select_loop NUM_MODEGROUPS 0
    { m with g := { m.g with g_u8mode_idx := 0, g_u8mode_override := 0 } }

/-- The config-mode branch of the main loop (`if (g_u8fast_presses > 0x0f)`)
run with power on through every acceptance window but the last, that of
`toggle(&g_u8firstboot, 8)`, where it stops after the first `save_state`:
the state of the device when power is cut there to reset it. -/
def config_mode_reset (m : Main) : Main :=
  let m1 := toggle ConfigVar.muggle_mode 1
    { m with g_u8fast_presses := 0, g := { m.g with g_u8mode_idx := 0 } }
  if m1.g.muggle_mode ≠ 0 then m1
  else
    let m4 := toggle ConfigVar.reverse_modes 4
      (toggle ConfigVar.enable_moon 3 (toggle ConfigVar.g_u8memory 2 m1))
    let m5 := toggle ConfigVar.g_u8mode_override 5
      { m4 with g := { m4.g with g_u8mode_idx := GROUP_SELECT_MODE } }
    let m6 := toggle ConfigVar.g_u8offtim3 6 { m5 with g := { m5.g with g_u8mode_idx := 0 } }
    let m7 := toggle ConfigVar.g_u8mode_override 7
      { m6 with g := { m6.g with g_u8mode_idx := TEMP_CAL_MODE } }
    toggle_commit ConfigVar.g_u8firstboot 8 { m7 with g := { m7.g with g_u8mode_idx := 0 } }

/-- The store of a device that was first powered with a blank EEPROM, ran
`restore_state` and the `save_mode` of `main`, was taken through config mode
and had its power cut in the acceptance window of the first-boot option. -/
def factory_reset_store : Nat → Nat :=
  (config_mode_reset (main_locals (save_mode (restore_state (boot (fun _ => 0xff)))) 0x10)).g.eeprom

/-! ## Termination of the loops

Each loop is given as much fuel as its C exit test allows iterations, so more
fuel does not change its result. -/

theorem count_solid_fuel (k : Nat) : ∀ (fuel : Nat) (b : ModeBuf), 8 - b.g_u8solid_modes ≤ fuel →
    count_solid (fuel + k) b = count_solid fuel b := by
  intro fuel
  induction fuel with
  | zero =>
    intro b h
    have h8 : ¬ b.g_u8solid_modes < 8 := by omega
    cases k with
    | zero => rfl
    | succ k => simp [count_solid, h8]
  | succ n ih =>
    intro b h
    rw [show n + 1 + k = (n + k) + 1 by omega]
    simp only [count_solid]
    split_ifs with hc
    · apply ih
      have : b.g_u8solid_modes < 8 := hc.1
      simp only [u8]
      omega
    · rfl

theorem count_solid_le (fuel : Nat) : ∀ b : ModeBuf, b.g_u8solid_modes ≤ 8 →
    (count_solid fuel b).g_u8solid_modes ≤ 8 := by
  induction fuel with
  | zero => intro b h; exact h
  | succ n ih =>
    intro b h
    simp only [count_solid]
    split_ifs with hc
    · apply ih
      have : b.g_u8solid_modes < 8 := hc.1
      simp only [u8]
      omega
    · exact h

theorem copy_hidden_fuel (past : Nat → Nat) (k : Nat) : ∀ (fuel : Nat) (b : ModeBuf),
    hiddenmodes.length - b.src ≤ fuel → copy_hidden past (fuel + k) b = copy_hidden past fuel b := by
  intro fuel
  induction fuel with
  | zero =>
    intro b h
    have h4 : ¬ b.src < hiddenmodes.length := by omega
    cases k with
    | zero => rfl
    | succ k => simp [copy_hidden, h4]
  | succ n ih =>
    intro b h
    rw [show n + 1 + k = (n + k) + 1 by omega]
    simp only [copy_hidden]
    split_ifs with hc
    · apply ih
      simp only
      omega
    · rfl

theorem copy_hidden_solid (past : Nat → Nat) (fuel : Nat) : ∀ b : ModeBuf,
    (copy_hidden past fuel b).g_u8solid_modes = b.g_u8solid_modes := by
  induction fuel with
  | zero => intro b; rfl
  | succ n ih =>
    intro b
    simp only [copy_hidden]
    split_ifs with hc
    · rw [ih]
    · rfl

theorem reverse_copy_fuel (past : Nat → Nat) (k : Nat) : ∀ (fuel i : Nat) (b : ModeBuf),
    b.g_u8solid_modes - i ≤ fuel → reverse_copy past (fuel + k) i b = reverse_copy past fuel i b := by
  intro fuel
  induction fuel with
  | zero =>
    intro i b h
    have h4 : ¬ i < b.g_u8solid_modes := by omega
    cases k with
    | zero => rfl
    | succ k => simp [reverse_copy, h4]
  | succ n ih =>
    intro i b h
    rw [show n + 1 + k = (n + k) + 1 by omega]
    simp only [reverse_copy]
    split_ifs with hc
    · apply ih
      simp only
      omega
    · rfl

theorem restore_scan_fuel (e : Nat → Nat) (k : Nat) : ∀ (fuel pos idx : Nat),
    EEPSIZE / 2 - pos ≤ fuel → restore_scan e (fuel + k) pos idx = restore_scan e fuel pos idx := by
  intro fuel
  induction fuel with
  | zero =>
    intro pos idx h
    have h4 : ¬ pos < EEPSIZE / 2 := by omega
    cases k with
    | zero => rfl
    | succ k => simp [restore_scan, h4]
  | succ n ih =>
    intro pos idx h
    rw [show n + 1 + k = (n + k) + 1 by omega]
    simp only [restore_scan]
    split_ifs with hc hd
    · rfl
    · apply ih
      have : pos < 32 := hc
      simp only [u8]
      have h32 : EEPSIZE / 2 = 32 := rfl
      omega
    · rfl

/-- The fuel handed to each loop by `count_modes` and `restore_state` is
enough: with any larger amount every loop returns the same result, so each
one stops on its own exit test.  The reversal loop is entered with
`g_u8solid_modes` at most 8 (`count_solid_le`, `copy_hidden_solid`). -/
theorem loops_fuel_sufficient (past e : Nat → Nat) (b : ModeBuf) (idx k : Nat) :
    count_solid (8 + k) { b with g_u8solid_modes := 0 }
      = count_solid 8 { b with g_u8solid_modes := 0 }
    ∧ copy_hidden past (4 + k) { b with src := 0 } = copy_hidden past 4 { b with src := 0 }
    ∧ (b.g_u8solid_modes ≤ 8 → reverse_copy past (8 + k) 0 b = reverse_copy past 8 0 b)
    ∧ restore_scan e (EEPSIZE / 2 + k) 0 idx = restore_scan e (EEPSIZE / 2) 0 idx := by
  refine ⟨count_solid_fuel k 8 _ (by simp), copy_hidden_fuel past k 4 _ (by simp [hiddenmodes]),
    fun h => reverse_copy_fuel past k 8 0 b (by omega), restore_scan_fuel e k _ 0 idx (by simp)⟩

/-! ## The mode list built by `count_modes` -/

theorem solid_levels_rows :
    solid_levels 0 = [64] ∧ solid_levels 1 = [11, 64] ∧ solid_levels 2 = [11, 35, 64] ∧
    solid_levels 3 = [11, 26, 46, 64] ∧ solid_levels 4 = [11, 23, 36, 50, 64] ∧
    solid_levels 5 = [11, 20, 31, 41, 53, 64] ∧ solid_levels 6 = [29, 64, 248] ∧
    solid_levels 7 = [250, 254, 11, 29, 64] ∧ solid_levels 8 = [9, 18, 29, 46, 64] ∧
    solid_levels 9 = [11, 29, 50] := by decide

theorem solid_count_bounds (g : Nat) (hg : g ≤ 9) : 1 ≤ solid_count g ∧ solid_count g ≤ 8 := by
  interval_cases g <;> decide

set_option maxHeartbeats 4000000 in
/-- What `count_modes` computes outside muggle mode, for each of the nine
groups: the two counters and the first `g_u8mode_cnt` cells of the buffer.
With reversal on, the first `solid_count g` cells hold the flash bytes found
past the end of `hiddenmodes`, last first. -/
theorem count_modes_body_spec (past : Nat → Nat) (g moon rev : Nat) (m : Nat → Nat) (a b : Nat)
    (hg : g ≤ 8) :
    (count_modes_body past g moon rev 0 m a b).g_u8solid_modes
      = (if moon ≠ 0 then 1 else 0) + solid_count g ∧
    (count_modes_body past g moon rev 0 m a b).g_u8mode_cnt
      = (if moon ≠ 0 then 1 else 0) + solid_count g + 4 - (if rev ≠ 0 then 1 else 0) ∧
    (List.range (count_modes_body past g moon rev 0 m a b).g_u8mode_cnt).map
        (count_modes_body past g moon rev 0 m a b).g_u8modes
      = if rev ≠ 0 then
          (List.range (solid_count g)).map (fun i => past (solid_count g - 1 - i))
            ++ (if moon ≠ 0 then [1] else []) ++ hiddenmodes.take 3
        else (if moon ≠ 0 then [1] else []) ++ solid_levels g ++ hiddenmodes := by
  obtain ⟨h0, h1, h2, h3, h4, h5, h6, h7, h8, -⟩ := solid_levels_rows
  by_cases hmoon : moon = 0 <;> by_cases hrev : rev = 0 <;> interval_cases g <;>
    simp [count_modes_body, count_solid, copy_hidden, reverse_copy, pgm_modegroups,
        pgm_hiddenmodes, modegroups, hiddenmodes, u8, hmoon, hrev, POLICE_STROBE, TURBO, RAMP_SIZE,
        BIKING_STROBE, BATTCHECK, solid_count, h0, h1, h2, h3, h4, h5, h6, h7, h8, poke,
        List.range, List.range.loop]

/-- What `count_modes` computes in muggle mode, whatever the stored group and
flags. -/
theorem count_modes_body_muggle (past : Nat → Nat) (g moon rev mug : Nat) (m : Nat → Nat)
    (a b : Nat) (hmug : mug ≠ 0) :
    (count_modes_body past g moon rev mug m a b).g_u8solid_modes = 3 ∧
    (count_modes_body past g moon rev mug m a b).g_u8mode_cnt = 7 ∧
    (List.range (count_modes_body past g moon rev mug m a b).g_u8mode_cnt).map
        (count_modes_body past g moon rev mug m a b).g_u8modes
      = [11, 29, 50] ++ hiddenmodes := by
  simp [count_modes_body, count_solid, copy_hidden, reverse_copy, pgm_modegroups,
        pgm_hiddenmodes, modegroups, hiddenmodes, u8, hmug, POLICE_STROBE, TURBO, RAMP_SIZE,
        BIKING_STROBE, BATTCHECK, NUM_MODEGROUPS, poke, List.range, List.range.loop]

theorem effective_group_le (s : State) (hg : s.g_u8modegroup ≤ 8) : effective_group s ≤ 9 := by
  unfold effective_group NUM_MODEGROUPS
  split_ifs <;> omega

/-- The two counters after `count_modes`, in terms of the effective
configuration. -/
theorem count_modes_counts (past : Nat → Nat) (s : State) (hg : s.g_u8modegroup ≤ 8) :
    (count_modes past s).g_u8solid_modes
      = (if effective_moon s then 1 else 0) + solid_count (effective_group s) ∧
    (count_modes past s).g_u8mode_cnt
      = (if effective_moon s then 1 else 0) + solid_count (effective_group s) + 4
        - (if effective_reverse s then 1 else 0) := by
  by_cases hmug : s.muggle_mode = 0
  · have h := count_modes_body_spec past s.g_u8modegroup s.enable_moon s.reverse_modes
      s.g_u8modes s.g_u8solid_modes s.g_u8mode_cnt hg
    simp only [count_modes, hmug, effective_moon, effective_reverse, effective_group]
    refine ⟨?_, ?_⟩
    · rw [h.1]; simp
    · rw [h.2.1]; simp
  · have h := count_modes_body_muggle past s.g_u8modegroup s.enable_moon s.reverse_modes
      s.muggle_mode s.g_u8modes s.g_u8solid_modes s.g_u8mode_cnt hmug
    simp only [count_modes, effective_moon, effective_reverse, effective_group]
    refine ⟨?_, ?_⟩
    · rw [h.1]; simp [hmug, NUM_MODEGROUPS, solid_count, solid_levels_rows]
    · rw [h.2.1]; simp [hmug, NUM_MODEGROUPS, solid_count, solid_levels_rows]

/-- C1: for every configuration with mode group in 0..8 and any flags, after
`count_modes` the list length `g_u8mode_cnt` is
(moon ? 1 : 0) + solid_count + hidden_count - (reverse ? 1 : 0), where
solid_count counts the levels of the selected group before its zero
terminator (at most 8), hidden_count is 4, and moon and reverse are the
effective flags: muggle mode forces both off and selects the three-level
muggle group. -/
theorem count_modes_length (past : Nat → Nat) (s : State) (hg : s.g_u8modegroup ≤ 8) :
    (count_modes past s).g_u8mode_cnt =
      (if effective_moon s then 1 else 0) + solid_count (effective_group s) + hiddenmodes.length
        - (if effective_reverse s then 1 else 0)
    ∧ solid_count (effective_group s) ≤ 8
    ∧ hiddenmodes.length = 4
    ∧ (s.muggle_mode ≠ 0 → effective_moon s = false ∧ effective_reverse s = false
        ∧ solid_levels (effective_group s) = [11, 29, 50]) := by
  refine ⟨(count_modes_counts past s hg).2, (solid_count_bounds _ (effective_group_le s hg)).2,
    rfl, ?_⟩
  intro hmug
  simp [effective_moon, effective_reverse, effective_group, hmug, NUM_MODEGROUPS,
    solid_levels_rows]

/-- The default configuration (group 5, moon on) has a list of 11 entries. -/
theorem count_modes_length_witness :
    (count_modes flash_declared_order (boot (fun _ => 0xff))).g_u8mode_cnt = 11 :=
  (count_modes_length flash_declared_order (boot (fun _ => 0xff)) (by decide)).1

theorem count_modes_list (past : Nat → Nat) (s : State) :
    ActiveModeList (count_modes past s) =
      (List.range (count_modes_body past s.g_u8modegroup s.enable_moon s.reverse_modes
          s.muggle_mode s.g_u8modes s.g_u8solid_modes s.g_u8mode_cnt).g_u8mode_cnt).map
        (count_modes_body past s.g_u8modegroup s.enable_moon s.reverse_modes
          s.muggle_mode s.g_u8modes s.g_u8solid_modes s.g_u8mode_cnt).g_u8modes := rfl

/-- C2: for every mode group 0..8 with `reverse_modes` and `muggle_mode` off,
`count_modes` builds the list made of the moon level 1 (when moon is
enabled), then the levels of the group up to its zero terminator in table
order, then the hidden list BIKING_STROBE, BATTCHECK, POLICE_STROBE, TURBO.
Group 3, levels 11, 26, 46, 64, with moon enabled gives the nine entries
1, 11, 26, 46, 64 and the four hidden modes. -/
theorem count_modes_forward (past : Nat → Nat) (s : State) (hg : s.g_u8modegroup ≤ 8)
    (hrev : s.reverse_modes = 0) (hmug : s.muggle_mode = 0) :
    ActiveModeList (count_modes past s) =
      (if s.enable_moon ≠ 0 then [1] else []) ++ solid_levels s.g_u8modegroup
        ++ [BIKING_STROBE, BATTCHECK, POLICE_STROBE, TURBO]
    ∧ (s.g_u8modegroup = 3 → s.enable_moon ≠ 0 →
        solid_levels s.g_u8modegroup = [11, 26, 46, 64]
        ∧ ActiveModeList (count_modes past s) =
            [1, 11, 26, 46, 64, BIKING_STROBE, BATTCHECK, POLICE_STROBE, TURBO]
        ∧ (ActiveModeList (count_modes past s)).length = 9) := by
  have h := (count_modes_body_spec past s.g_u8modegroup s.enable_moon s.reverse_modes
      s.g_u8modes s.g_u8solid_modes s.g_u8mode_cnt hg).2.2
  have hl : ActiveModeList (count_modes past s) =
      (if s.enable_moon ≠ 0 then [1] else []) ++ solid_levels s.g_u8modegroup
        ++ [BIKING_STROBE, BATTCHECK, POLICE_STROBE, TURBO] := by
    rw [count_modes_list, hmug, h]
    simp [hrev, hiddenmodes]
  refine ⟨hl, ?_⟩
  intro h3 hmoon
  rw [hl, h3]
  simp [hmoon, solid_levels_rows]

/-- Group 3 with moon on, reversal and muggle mode off. -/
theorem count_modes_forward_witness :
    ActiveModeList (count_modes flash_declared_order
        { boot (fun _ => 0xff) with g_u8modegroup := 3 }) =
      [1, 11, 26, 46, 64, 250, 254, 248, 64] :=
  ((count_modes_forward flash_declared_order { boot (fun _ => 0xff) with g_u8modegroup := 3 }
    (by decide) rfl rfl).2 rfl (by decide)).2.1

/-- C3, counterexample: group 3 (levels 11, 26, 46, 64) with moon and reversal
enabled.  The claimed list is 1, 64, 46, 26, 11, A, B, C.  Whatever follows
`hiddenmodes` in flash, cell 4 of the list holds the moon level 1 (not 11) and
cell 0 holds the flash byte three places past the end of `hiddenmodes`; with
`modegroups` placed right after `hiddenmodes` the list is
0, 0, 0, 64, 1, A, B, C. -/
theorem count_modes_reverse_counterexample :
    ActiveModeList (count_modes flash_declared_order
        { boot (fun _ => 0xff) with g_u8modegroup := 3, reverse_modes := 1 })
      = [0, 0, 0, 64, 1, BIKING_STROBE, BATTCHECK, POLICE_STROBE]
    ∧ ActiveModeList (count_modes flash_declared_order
        { boot (fun _ => 0xff) with g_u8modegroup := 3, reverse_modes := 1 })
      ≠ [1, 64, 46, 26, 11, BIKING_STROBE, BATTCHECK, POLICE_STROBE]
    ∧ ∀ past : Nat → Nat,
        (count_modes past
          { boot (fun _ => 0xff) with g_u8modegroup := 3, reverse_modes := 1 }).g_u8modes 4 = 1
        ∧ (count_modes past
          { boot (fun _ => 0xff) with g_u8modegroup := 3, reverse_modes := 1 }).g_u8modes 0
            = past 3 := by
  refine ⟨by decide, by decide, fun past => ⟨rfl, rfl⟩⟩

/-- C3, amended: for every mode group 0..8 with `reverse_modes` on and
`muggle_mode` off, `count_modes` builds a list of solid_count + (moon ? 1 : 0)
+ 3 entries in which the solid_count cells of the reversed solid portion come
first, the moon level 1 (when moon is enabled) follows them, and the hidden
list without its last, turbo-duplicate, entry ends the list.  Group 3 with
moon enabled gives eight entries, the last four being 1, BIKING_STROBE,
BATTCHECK, POLICE_STROBE. -/
theorem count_modes_reverse (past : Nat → Nat) (s : State) (hg : s.g_u8modegroup ≤ 8)
    (hrev : s.reverse_modes ≠ 0) (hmug : s.muggle_mode = 0) :
    (ActiveModeList (count_modes past s)).length
      = solid_count s.g_u8modegroup + (if s.enable_moon ≠ 0 then 1 else 0) + 3
    ∧ (ActiveModeList (count_modes past s)).drop (solid_count s.g_u8modegroup)
      = (if s.enable_moon ≠ 0 then [1] else []) ++ [BIKING_STROBE, BATTCHECK, POLICE_STROBE]
    ∧ (s.g_u8modegroup = 3 → s.enable_moon ≠ 0 →
        (ActiveModeList (count_modes past s)).length = 8
        ∧ (ActiveModeList (count_modes past s)).drop 4
            = [1, BIKING_STROBE, BATTCHECK, POLICE_STROBE]) := by
  have h := (count_modes_body_spec past s.g_u8modegroup s.enable_moon s.reverse_modes
      s.g_u8modes s.g_u8solid_modes s.g_u8mode_cnt hg).2.2
  have hl : ActiveModeList (count_modes past s) =
      (List.range (solid_count s.g_u8modegroup)).map
          (fun i => past (solid_count s.g_u8modegroup - 1 - i))
        ++ ((if s.enable_moon ≠ 0 then [1] else [])
          ++ [BIKING_STROBE, BATTCHECK, POLICE_STROBE]) := by
    rw [count_modes_list, hmug, h]
    simp [hrev, hiddenmodes]
  have hlen : (ActiveModeList (count_modes past s)).length
      = solid_count s.g_u8modegroup + (if s.enable_moon ≠ 0 then 1 else 0) + 3 := by
    rw [hl]
    by_cases hm : s.enable_moon = 0 <;> simp [hm]
  have hdrop : (ActiveModeList (count_modes past s)).drop (solid_count s.g_u8modegroup)
      = (if s.enable_moon ≠ 0 then [1] else []) ++ [BIKING_STROBE, BATTCHECK, POLICE_STROBE] := by
    rw [hl]
    exact List.drop_left' (by simp)
  refine ⟨hlen, hdrop, ?_⟩
  intro h3 hmoon
  have hc : solid_count s.g_u8modegroup = 4 := by rw [h3]; decide
  rw [hc] at hlen hdrop
  rw [hlen, hdrop]
  simp [hmoon]

/-- Group 3 with moon and reversal on: the last four entries. -/
theorem count_modes_reverse_witness :
    (ActiveModeList (count_modes flash_declared_order
        { boot (fun _ => 0xff) with g_u8modegroup := 3, reverse_modes := 1 })).drop 4
      = [1, BIKING_STROBE, BATTCHECK, POLICE_STROBE] :=
  ((count_modes_reverse flash_declared_order
    { boot (fun _ => 0xff) with g_u8modegroup := 3, reverse_modes := 1 }
    (by decide) (by decide) rfl).2.2 rfl (by decide)).2

/-! ## Navigation -/

theorem next_mode_frame (s : State) :
    next_mode s = { s with g_u8mode_idx := (next_mode s).g_u8mode_idx } := by
  unfold next_mode
  simp only
  split_ifs <;> rfl

theorem prev_mode_frame (s : State) :
    prev_mode s = { s with g_u8mode_idx := (prev_mode s).g_u8mode_idx } := by
  unfold prev_mode
  split_ifs
  · exact next_mode_frame s
  all_goals rfl

theorem next_mode_idx (s : State) (hi : s.g_u8mode_idx < 256) (h1 : 1 ≤ s.g_u8solid_modes)
    (h2 : s.g_u8solid_modes < 256) :
    (next_mode s).g_u8mode_idx
      = if s.g_u8mode_idx + 1 < s.g_u8solid_modes then s.g_u8mode_idx + 1 else 0 := by
  unfold next_mode u8
  simp only
  by_cases h255 : s.g_u8mode_idx = 255
  · rw [h255]
    have : ¬ (255 + 1 < s.g_u8solid_modes) := by omega
    simp [this]
  · have hmod : (s.g_u8mode_idx + 1) % 256 = s.g_u8mode_idx + 1 := Nat.mod_eq_of_lt (by omega)
    rw [hmod]
    split_ifs <;> first | rfl | omega

/-- C4: for every configuration with mode group 0..8 and any flags, the list
built by `count_modes` has at least one entry, and from every index below
`g_u8mode_cnt` both `next_mode` and `prev_mode` lead to an index below
`g_u8mode_cnt`, changing no other variable. -/
theorem mode_index_valid (past : Nat → Nat) (s : State) (hg : s.g_u8modegroup ≤ 8) :
    1 ≤ (ActiveModeList (count_modes past s)).length
    ∧ (ActiveModeList (count_modes past s)).length = (count_modes past s).g_u8mode_cnt
    ∧ ∀ i, i < (count_modes past s).g_u8mode_cnt →
        (next_mode { count_modes past s with g_u8mode_idx := i }).g_u8mode_idx
            < (next_mode { count_modes past s with g_u8mode_idx := i }).g_u8mode_cnt
        ∧ (prev_mode { count_modes past s with g_u8mode_idx := i }).g_u8mode_idx
            < (prev_mode { count_modes past s with g_u8mode_idx := i }).g_u8mode_cnt
        ∧ next_mode { count_modes past s with g_u8mode_idx := i }
            = { count_modes past s with
                g_u8mode_idx := (next_mode { count_modes past s with g_u8mode_idx := i }).g_u8mode_idx }
        ∧ prev_mode { count_modes past s with g_u8mode_idx := i }
            = { count_modes past s with
                g_u8mode_idx := (prev_mode { count_modes past s with g_u8mode_idx := i }).g_u8mode_idx } := by
  obtain ⟨hsol, hcnt⟩ := count_modes_counts past s hg
  obtain ⟨hn1, hn8⟩ := solid_count_bounds _ (effective_group_le s hg)
  have hM : (if effective_moon s then 1 else 0) ≤ 1 := by split_ifs <;> omega
  have hR : (if effective_reverse s then 1 else 0) ≤ 1 := by split_ifs <;> omega
  have hlen : (ActiveModeList (count_modes past s)).length = (count_modes past s).g_u8mode_cnt := by
    simp [ActiveModeList]
  refine ⟨by rw [hlen]; omega, hlen, ?_⟩
  intro i hi
  have hnext : ∀ t : State, t.g_u8mode_cnt = (count_modes past s).g_u8mode_cnt →
      t.g_u8solid_modes = (count_modes past s).g_u8solid_modes → t.g_u8mode_idx = i →
      (next_mode t).g_u8mode_idx < (next_mode t).g_u8mode_cnt := by
    intro t hc hs hti
    rw [next_mode_frame t, next_mode_idx t (by omega) (by omega) (by omega)]
    simp only
    split_ifs <;> omega
  refine ⟨hnext _ rfl rfl rfl, ?_, ?_, ?_⟩
  · unfold prev_mode
    split_ifs with h1 h2 h3
    · exact hnext _ rfl rfl rfl
    · simp only; omega
    · simp only [u8] at *; omega
    · simp only [u8] at *; omega
  · rw [next_mode_frame]
  · rw [prev_mode_frame]

/-- Going back from index 0 in the default configuration stays inside the list. -/
theorem mode_index_valid_witness :
    (prev_mode { count_modes flash_declared_order (boot (fun _ => 0xff)) with
        g_u8mode_idx := 0 }).g_u8mode_idx
      < (prev_mode { count_modes flash_declared_order (boot (fun _ => 0xff)) with
        g_u8mode_idx := 0 }).g_u8mode_cnt :=
  ((mode_index_valid flash_declared_order (boot (fun _ => 0xff)) (by decide)).2.2 0
    (by decide)).2.1

/-- C5: `next_mode` from any 8-bit index, with `g_u8solid_modes` at least 1:
the new index is the old one plus 1 when that is below `g_u8solid_modes` and
0 otherwise, so it is always below `g_u8solid_modes`: going forward never
lands on a hidden mode, also when started from one. -/
theorem next_mode_wraps (s : State) (hi : s.g_u8mode_idx < 256) (h1 : 1 ≤ s.g_u8solid_modes)
    (h2 : s.g_u8solid_modes < 256) :
    (next_mode s).g_u8mode_idx
      = (if s.g_u8mode_idx + 1 < s.g_u8solid_modes then s.g_u8mode_idx + 1 else 0)
    ∧ (next_mode s).g_u8mode_idx < s.g_u8solid_modes := by
  have h := next_mode_idx s hi h1 h2
  refine ⟨h, ?_⟩
  rw [h]
  split_ifs <;> omega

/-- Going forward from the hidden index 9 in the default configuration. -/
theorem next_mode_wraps_witness :
    (next_mode { count_modes flash_declared_order (boot (fun _ => 0xff)) with
        g_u8mode_idx := 9 }).g_u8mode_idx < 7 :=
  (next_mode_wraps { count_modes flash_declared_order (boot (fun _ => 0xff)) with
        g_u8mode_idx := 9 } (by decide) (by decide) (by decide)).2

/-- C6: `prev_mode` with `muggle_mode` off: an index equal to
`g_u8solid_modes` becomes 0; any other index above 0 becomes the index minus
1; index 0 becomes `g_u8mode_cnt - 1` in 8-bit arithmetic, the last entry of
the list when it has one.  With `muggle_mode` on, `prev_mode` is `next_mode`.
No other variable changes. -/
theorem prev_mode_spec (s : State) (hi : s.g_u8mode_idx < 256) (hc : s.g_u8mode_cnt < 256) :
    (s.muggle_mode = 0 → s.g_u8mode_idx = s.g_u8solid_modes → (prev_mode s).g_u8mode_idx = 0)
    ∧ (s.muggle_mode = 0 → s.g_u8mode_idx ≠ s.g_u8solid_modes → 0 < s.g_u8mode_idx →
        (prev_mode s).g_u8mode_idx = s.g_u8mode_idx - 1)
    ∧ (s.muggle_mode = 0 → s.g_u8mode_idx ≠ s.g_u8solid_modes → s.g_u8mode_idx = 0 →
        (prev_mode s).g_u8mode_idx = (s.g_u8mode_cnt + 255) % 256
        ∧ (1 ≤ s.g_u8mode_cnt → (prev_mode s).g_u8mode_idx = s.g_u8mode_cnt - 1))
    ∧ (s.muggle_mode ≠ 0 → prev_mode s = next_mode s)
    ∧ prev_mode s = { s with g_u8mode_idx := (prev_mode s).g_u8mode_idx } := by
  refine ⟨?_, ?_, ?_, ?_, prev_mode_frame s⟩
  · intro hm he
    simp [prev_mode, hm, he]
  · intro hm hne hpos
    have h0 : ¬ s.g_u8mode_idx = 0 := by omega
    simp only [prev_mode, hm, hne, hpos, u8, ne_eq, not_true_eq_false, if_false, if_true]
    omega
  · intro hm hne h0
    have hlt : ¬ s.g_u8mode_idx > 0 := by omega
    have hp : (prev_mode s).g_u8mode_idx = (s.g_u8mode_cnt + 255) % 256 := by
      unfold prev_mode
      rw [if_neg (not_not.mpr hm), if_neg hne, if_neg hlt]
      rfl
    exact ⟨hp, fun h1 => by rw [hp]; omega⟩
  · intro hm
    simp [prev_mode, hm]

/-- Going back from index 0 in the default configuration reaches the last entry. -/
theorem prev_mode_spec_witness :
    (prev_mode { count_modes flash_declared_order (boot (fun _ => 0xff)) with
        g_u8mode_idx := 0 }).g_u8mode_idx = 11 - 1 :=
  ((prev_mode_spec { count_modes flash_declared_order (boot (fun _ => 0xff)) with
        g_u8mode_idx := 0 } (by decide) (by decide)).2.2.1 rfl (by decide) rfl).2 (by decide)

theorem next_mode_iterate (s : State) (hi : s.g_u8mode_idx < s.g_u8solid_modes)
    (h2 : s.g_u8solid_modes < 256) (k : Nat) :
    Nat.iterate next_mode k s
      = { s with g_u8mode_idx := (s.g_u8mode_idx + k) % s.g_u8solid_modes } := by
  induction k with
  | zero =>
    simp only [Function.iterate_zero, id_eq, Nat.add_zero]
    rw [Nat.mod_eq_of_lt hi]
  | succ n ih =>
    rw [Function.iterate_succ_apply', ih, next_mode_frame]
    have hlt : (s.g_u8mode_idx + n) % s.g_u8solid_modes < s.g_u8solid_modes :=
      Nat.mod_lt _ (by omega)
    rw [next_mode_idx _ (by simp only; omega) (by simp only; omega) (by simp only; omega)]
    simp only
    congr 1
    rw [← Nat.add_assoc, Nat.add_mod _ 1]
    split_ifs with h
    · have h1 : 1 % s.g_u8solid_modes = 1 := Nat.mod_eq_of_lt (by omega)
      rw [h1, Nat.mod_eq_of_lt h]
    · have he : (s.g_u8mode_idx + n) % s.g_u8solid_modes + 1 = s.g_u8solid_modes := by omega
      by_cases hs1 : s.g_u8solid_modes = 1
      · rw [hs1]; simp [Nat.mod_one]
      · have h1 : 1 % s.g_u8solid_modes = 1 := Nat.mod_eq_of_lt (by omega)
        rw [h1, he, Nat.mod_self]

/-- C7, counterexample: the default configuration (group 5, moon on) has
`g_u8solid_modes` 7 and `g_u8mode_cnt` 11.  From the valid index 0, eleven
calls of `next_mode` end on index 4; from the valid hidden index 8 they end
on index 3. -/
theorem next_mode_cycle_counterexample :
    (count_modes flash_declared_order (boot (fun _ => 0xff))).g_u8mode_cnt = 11
    ∧ (count_modes flash_declared_order (boot (fun _ => 0xff))).g_u8mode_idx = 0
    ∧ (Nat.iterate next_mode (count_modes flash_declared_order (boot (fun _ => 0xff))).g_u8mode_cnt
        (count_modes flash_declared_order (boot (fun _ => 0xff)))).g_u8mode_idx = 4
    ∧ (Nat.iterate next_mode (count_modes flash_declared_order (boot (fun _ => 0xff))).g_u8mode_cnt
        { count_modes flash_declared_order (boot (fun _ => 0xff)) with
          g_u8mode_idx := 8 }).g_u8mode_idx = 3 := by
  decide

/-- C7, amended: for every configuration with mode group 0..8 and any flags,
and every starting index in the solid portion (below `g_u8solid_modes`),
`g_u8solid_modes` calls of `next_mode` return the index to its starting
value. -/
theorem next_mode_solid_cycle (past : Nat → Nat) (s : State) (hg : s.g_u8modegroup ≤ 8)
    (i : Nat) (hi : i < (count_modes past s).g_u8solid_modes) :
    (Nat.iterate next_mode (count_modes past s).g_u8solid_modes
      { count_modes past s with g_u8mode_idx := i }).g_u8mode_idx = i := by
  obtain ⟨hsol, -⟩ := count_modes_counts past s hg
  obtain ⟨-, hn8⟩ := solid_count_bounds _ (effective_group_le s hg)
  have hM : (if effective_moon s then 1 else 0) ≤ 1 := by split_ifs <;> omega
  rw [next_mode_iterate _ hi (by simp only; omega)]
  simp only [Nat.add_mod_right]
  exact Nat.mod_eq_of_lt hi

/-- Seven steps forward from index 6 in the default configuration. -/
theorem next_mode_solid_cycle_witness :
    (Nat.iterate next_mode 7
      { count_modes flash_declared_order (boot (fun _ => 0xff)) with
        g_u8mode_idx := 6 }).g_u8mode_idx = 6 :=
  next_mode_solid_cycle flash_declared_order (boot (fun _ => 0xff)) (by decide) 6 (by decide)

/-! ## Persistent store -/

theorem save_mode_eepos (s : State) :
    (save_mode s).g_u8eepos = (s.g_u8eepos + 1) % 32 := by
  have h : (s.g_u8eepos + 1) &&& (EEPSIZE / 2 - 1) = (s.g_u8eepos + 1) % 32 :=
    Nat.and_pow_two_sub_one_eq_mod (s.g_u8eepos + 1) 5
  simp only [save_mode, h, u8]
  omega

theorem save_mode_eeprom (s : State) (a : Nat) :
    (save_mode s).eeprom a
      = if a = s.g_u8eepos then 0xff
        else if a = (s.g_u8eepos + 1) % 32 then s.g_u8mode_idx else s.eeprom a := by
  have h := save_mode_eepos s
  simp only [save_mode] at h
  simp only [save_mode, eeprom_write_byte, poke, h]

theorem save_mode_slots (s : State) (h : erased_except s.eeprom s.g_u8eepos) :
    (save_mode s).eeprom (save_mode s).g_u8eepos = s.g_u8mode_idx
    ∧ erased_except (save_mode s).eeprom (save_mode s).g_u8eepos := by
  have hne : (s.g_u8eepos + 1) % 32 ≠ s.g_u8eepos := by omega
  refine ⟨?_, ?_⟩
  · rw [save_mode_eeprom, save_mode_eepos, if_neg hne, if_pos rfl]
  · intro a ha hapos
    rw [save_mode_eepos] at hapos
    rw [save_mode_eeprom, if_neg hapos]
    split_ifs with h1
    · rfl
    · exact h a ha h1

theorem restore_scan_found (e : Nat → Nat) (p : Nat) (hp : p < EEPSIZE / 2)
    (hlt : ∀ a, a < p → e a = 0xff) (hne : e p ≠ 0xff) (idx : Nat) :
    ∀ (fuel pos : Nat), pos ≤ p → p < pos + fuel → restore_scan e fuel pos idx = (p, e p) := by
  intro fuel
  induction fuel with
  | zero => intro pos h1 h2; omega
  | succ n ih =>
    intro pos h1 h2
    have h32 : EEPSIZE / 2 = 32 := rfl
    have hpos : pos < EEPSIZE / 2 := by omega
    simp only [restore_scan, hpos, if_true, eeprom_read_byte]
    by_cases hpp : pos = p
    · rw [hpp, if_pos hne]
    · have he : e pos = 0xff := hlt pos (by omega)
      rw [if_neg (not_not.mpr he)]
      have hu : u8 (pos + 1) = pos + 1 := by simp only [u8]; omega
      rw [hu]
      exact ih (pos + 1) (by omega) (by omega)

theorem restore_state_idx (s : State) (p : Nat) (hp : p < EEPSIZE / 2)
    (hs : s.eeprom OPT_firstboot = FIRSTBOOT) (hv : s.eeprom p ≠ 0xff)
    (he : erased_except s.eeprom p) :
    (restore_state s).g_u8mode_idx = s.eeprom p ∧ (restore_state s).g_u8eepos = p := by
  have hscan := restore_scan_found s.eeprom p hp (fun a ha => he a (by omega) (by omega)) hv
    s.g_u8mode_idx (EEPSIZE / 2) 0 (by omega) (by omega)
  have hs2 : ¬ eeprom_read_byte s.eeprom OPT_firstboot ≠ FIRSTBOOT := not_not.mpr hs
  unfold restore_state
  rw [if_neg hs2]
  simp only [hscan, and_self]

theorem save_state_eeprom_low (s : State) (a : Nat) (ha : a < EEPSIZE / 2) :
    (save_state s).eeprom a = (save_mode s).eeprom a := by
  have h32 : EEPSIZE / 2 = 32 := rfl
  simp only [save_state, eeprom_write_byte, poke, OPT_firstboot, OPT_modegroup, OPT_memory,
    OPT_offtim3, OPT_maxtemp, OPT_mode_override, OPT_moon, OPT_revmodes, OPT_muggle, EEPSIZE]
  repeat rw [if_neg (by omega)]

theorem save_state_eeprom_opt (s : State) :
    (save_state s).eeprom OPT_firstboot = s.g_u8firstboot
    ∧ (save_state s).eeprom OPT_modegroup = s.g_u8modegroup
    ∧ (save_state s).eeprom OPT_memory = s.g_u8memory
    ∧ (save_state s).eeprom OPT_offtim3 = s.g_u8offtim3
    ∧ (save_state s).eeprom OPT_maxtemp = s.g_u8maxtemp
    ∧ (save_state s).eeprom OPT_mode_override = s.g_u8mode_override
    ∧ (save_state s).eeprom OPT_moon = s.enable_moon
    ∧ (save_state s).eeprom OPT_revmodes = s.reverse_modes
    ∧ (save_state s).eeprom OPT_muggle = s.muggle_mode := by
  simp [save_state, save_mode, eeprom_write_byte, poke, OPT_firstboot, OPT_modegroup, OPT_memory,
    OPT_offtim3, OPT_maxtemp, OPT_mode_override, OPT_moon, OPT_revmodes, OPT_muggle, EEPSIZE]

theorem restore_state_fields (s : State) (hs : s.eeprom OPT_firstboot = FIRSTBOOT) :
    (restore_state s).g_u8firstboot = s.g_u8firstboot
    ∧ (restore_state s).g_u8modegroup = s.eeprom OPT_modegroup
    ∧ (restore_state s).g_u8memory = s.eeprom OPT_memory
    ∧ (restore_state s).g_u8offtim3 = s.eeprom OPT_offtim3
    ∧ (restore_state s).g_u8maxtemp = s.eeprom OPT_maxtemp
    ∧ (restore_state s).g_u8mode_override = s.eeprom OPT_mode_override
    ∧ (restore_state s).enable_moon = s.eeprom OPT_moon
    ∧ (restore_state s).reverse_modes = s.eeprom OPT_revmodes
    ∧ (restore_state s).muggle_mode = s.eeprom OPT_muggle
    ∧ (restore_state s).eeprom = s.eeprom := by
  have hs2 : ¬ eeprom_read_byte s.eeprom OPT_firstboot ≠ FIRSTBOOT := not_not.mpr hs
  unfold restore_state
  rw [if_neg hs2]
  simp only [eeprom_read_byte, and_self]

theorem save_mode_pos_lt (s : State) : (save_mode s).g_u8eepos < EEPSIZE / 2 := by
  have h32 : EEPSIZE / 2 = 32 := rfl
  rw [save_mode_eepos, h32]
  omega

/-- C8: for every value of the configuration fields with `g_u8firstboot` equal
to the sentinel 0x55, and every mode index other than the erased marker 0xFF,
starting from a store whose rotating region has no non-erased slot other than
position `g_u8eepos`: `save_state` followed by `restore_state` on a freshly
booted device reproduces `g_u8mode_idx` and every configuration field. -/
theorem save_restore_roundtrip (s : State) (hfb : s.g_u8firstboot = FIRSTBOOT)
    (hidx : s.g_u8mode_idx ≠ 0xff) (he : erased_except s.eeprom s.g_u8eepos) :
    (restore_state (boot (save_state s).eeprom)).g_u8mode_idx = s.g_u8mode_idx
    ∧ (restore_state (boot (save_state s).eeprom)).g_u8firstboot = s.g_u8firstboot
    ∧ (restore_state (boot (save_state s).eeprom)).g_u8modegroup = s.g_u8modegroup
    ∧ (restore_state (boot (save_state s).eeprom)).g_u8memory = s.g_u8memory
    ∧ (restore_state (boot (save_state s).eeprom)).g_u8offtim3 = s.g_u8offtim3
    ∧ (restore_state (boot (save_state s).eeprom)).g_u8maxtemp = s.g_u8maxtemp
    ∧ (restore_state (boot (save_state s).eeprom)).g_u8mode_override = s.g_u8mode_override
    ∧ (restore_state (boot (save_state s).eeprom)).enable_moon = s.enable_moon
    ∧ (restore_state (boot (save_state s).eeprom)).reverse_modes = s.reverse_modes
    ∧ (restore_state (boot (save_state s).eeprom)).muggle_mode = s.muggle_mode := by
  obtain ⟨o1, o2, o3, o4, o5, o6, o7, o8, o9⟩ := save_state_eeprom_opt s
  obtain ⟨hslot, hrest⟩ := save_mode_slots s he
  have hp := save_mode_pos_lt s
  have hsent : (boot (save_state s).eeprom).eeprom OPT_firstboot = FIRSTBOOT := by
    show (save_state s).eeprom OPT_firstboot = FIRSTBOOT
    rw [o1, hfb]
  have hval : (boot (save_state s).eeprom).eeprom (save_mode s).g_u8eepos = s.g_u8mode_idx := by
    show (save_state s).eeprom (save_mode s).g_u8eepos = s.g_u8mode_idx
    rw [save_state_eeprom_low s _ hp, hslot]
  have hera : erased_except (boot (save_state s).eeprom).eeprom (save_mode s).g_u8eepos := by
    intro a ha hne
    show (save_state s).eeprom a = 0xff
    rw [save_state_eeprom_low s a ha]
    exact hrest a ha hne
  obtain ⟨hi, -⟩ := restore_state_idx (boot (save_state s).eeprom) (save_mode s).g_u8eepos hp hsent
    (by rw [hval]; exact hidx) hera
  obtain ⟨f1, f2, f3, f4, f5, f6, f7, f8, f9, -⟩ :=
    restore_state_fields (boot (save_state s).eeprom) hsent
  refine ⟨by rw [hi, hval], ?_, ?_, ?_, ?_, ?_, ?_, ?_, ?_, ?_⟩
  · rw [f1, hfb]; rfl
  · rw [f2]; exact o2
  · rw [f3]; exact o3
  · rw [f4]; exact o4
  · rw [f5]; exact o5
  · rw [f6]; exact o6
  · rw [f7]; exact o7
  · rw [f8]; exact o8
  · rw [f9]; exact o9

/-- A configuration saved on a blank store and read back after a reboot. -/
theorem save_restore_roundtrip_witness :
    (restore_state (boot (save_state
      { boot (fun _ => 0xff) with g_u8mode_idx := 3, g_u8modegroup := 7, g_u8maxtemp := 200,
                                   reverse_modes := 1 }).eeprom)).g_u8modegroup = 7 :=
  (save_restore_roundtrip
    { boot (fun _ => 0xff) with g_u8mode_idx := 3, g_u8modegroup := 7, g_u8maxtemp := 200,
                                 reverse_modes := 1 }
    rfl (by decide) (fun _ _ _ => rfl)).2.2.1

theorem save_modes_slots : ∀ (vs : List Nat) (v : Nat) (s : State),
    erased_except s.eeprom s.g_u8eepos →
    (save_modes (v :: vs) s).g_u8eepos < EEPSIZE / 2
    ∧ some ((save_modes (v :: vs) s).eeprom (save_modes (v :: vs) s).g_u8eepos)
        = (v :: vs).getLast?
    ∧ erased_except (save_modes (v :: vs) s).eeprom (save_modes (v :: vs) s).g_u8eepos := by
  intro vs
  induction vs with
  | nil =>
    intro v s he
    obtain ⟨h1, h2⟩ := save_mode_slots { s with g_u8mode_idx := v } he
    exact ⟨save_mode_pos_lt _, by simp only [save_modes, List.foldl, h1]; rfl, h2⟩
  | cons w ws ih =>
    intro v s he
    obtain ⟨-, h2⟩ := save_mode_slots { s with g_u8mode_idx := v } he
    have h := ih w (save_mode { s with g_u8mode_idx := v }) h2
    rw [List.getLast?_cons_cons]
    exact h

/-- C9: starting from a store whose rotating region (32 slots) has no
non-erased slot other than the current position, after any sequence of more
than 32 `save_mode` calls saving values different from 0xFF, `restore_state`
on a freshly booted device, with a valid sentinel in the store, sets
`g_u8mode_idx` to the value saved last. -/
theorem save_modes_restore (vs : List Nat) (s : State) (hlen : EEPSIZE / 2 < vs.length)
    (hv : ∀ v ∈ vs, v ≠ 0xff) (he : erased_except s.eeprom s.g_u8eepos)
    (hs : (save_modes vs s).eeprom OPT_firstboot = FIRSTBOOT) :
    vs.getLast? = some (restore_state (boot (save_modes vs s).eeprom)).g_u8mode_idx := by
  cases vs with
  | nil => simp at hlen
  | cons v ws =>
    obtain ⟨hp, hlast, hera⟩ := save_modes_slots ws v s he
    have hmem : ∀ x, (v :: ws).getLast? = some x → x ≠ 0xff :=
      fun x hx => hv x (List.mem_of_getLast?_eq_some hx)
    have hne := hmem _ hlast.symm
    obtain ⟨hi, -⟩ := restore_state_idx (boot (save_modes (v :: ws) s).eeprom) _ hp hs hne hera
    rw [hi]
    exact hlast.symm

/-- Thirty-three saves after the first-boot save, then a reboot. -/
theorem save_modes_restore_witness :
    (List.range 33).getLast?
      = some (restore_state (boot (save_modes (List.range 33)
          (save_state (boot (fun _ => 0xff)))).eeprom)).g_u8mode_idx :=
  save_modes_restore (List.range 33) (save_state (boot (fun _ => 0xff))) (by decide) (by decide)
    (by unfold erased_except; decide) (by decide)

/-- C10: if every slot of the rotating region other than position
`g_u8eepos` is erased, then after `save_mode` the position is
(g_u8eepos + 1) mod 32, that slot holds `g_u8mode_idx`, and every other slot
of the rotating region is erased; so when the saved value is not 0xFF exactly
one slot, the new position, is non-erased. -/
theorem save_mode_single_slot (s : State) (he : erased_except s.eeprom s.g_u8eepos) :
    (save_mode s).g_u8eepos = (s.g_u8eepos + 1) % 32
    ∧ (save_mode s).g_u8eepos < EEPSIZE / 2
    ∧ (save_mode s).eeprom (save_mode s).g_u8eepos = s.g_u8mode_idx
    ∧ (∀ a, a < EEPSIZE / 2 → a ≠ (save_mode s).g_u8eepos → (save_mode s).eeprom a = 0xff)
    ∧ (s.g_u8mode_idx ≠ 0xff →
        ∀ a, a < EEPSIZE / 2 → ((save_mode s).eeprom a ≠ 0xff ↔ a = (save_mode s).g_u8eepos)) := by
  obtain ⟨h1, h2⟩ := save_mode_slots s he
  refine ⟨save_mode_eepos s, save_mode_pos_lt s, h1, h2, ?_⟩
  intro hidx a ha
  constructor
  · intro hne
    by_contra hc
    exact hne (h2 a ha hc)
  · intro heq
    rw [heq, h1]
    exact hidx

/-- The position wraps from slot 31 to slot 0. -/
theorem save_mode_single_slot_witness :
    (save_mode { boot (fun _ => 0xff) with g_u8eepos := 31, g_u8mode_idx := 4 }).eeprom 0 = 4 :=
  (save_mode_single_slot { boot (fun _ => 0xff) with g_u8eepos := 31, g_u8mode_idx := 4 }
    (fun _ _ _ => rfl)).2.2.1

/-! ## First boot -/

theorem restore_state_first (s : State) (p : Nat) (hp : p < EEPSIZE / 2)
    (hs : s.eeprom OPT_firstboot = FIRSTBOOT) (hv : s.eeprom p ≠ 0xff)
    (hlt : ∀ a, a < p → s.eeprom a = 0xff) :
    (restore_state s).g_u8mode_idx = s.eeprom p ∧ (restore_state s).g_u8eepos = p := by
  have hscan := restore_scan_found s.eeprom p hp hlt hv
    s.g_u8mode_idx (EEPSIZE / 2) 0 (by omega) (by omega)
  have hs2 : ¬ eeprom_read_byte s.eeprom OPT_firstboot ≠ FIRSTBOOT := not_not.mpr hs
  unfold restore_state
  rw [if_neg hs2]
  simp only [hscan, and_self]

theorem restore_state_first_boot (s : State) (h : s.eeprom OPT_firstboot ≠ FIRSTBOOT) :
    restore_state s = save_state s := by
  have h2 : eeprom_read_byte s.eeprom OPT_firstboot ≠ FIRSTBOOT := h
  unfold restore_state
  rw [if_pos h2]

/-- C11: for every store content whose byte at `OPT_firstboot` differs from
the sentinel 0x55, `restore_state` on a freshly booted device leaves the RAM
configuration at the built-in defaults and writes them to the store together
with the sentinel; a second `restore_state` on a freshly booted device with
the resulting store takes the normal path (it does not write the store) and
yields the same defaults with mode index 0. -/
theorem first_boot_defaults (e : Nat → Nat) (h : e OPT_firstboot ≠ FIRSTBOOT) :
    has_defaults (restore_state (boot e))
    ∧ stores_defaults (restore_state (boot e)).eeprom
    ∧ has_defaults (restore_state (boot (restore_state (boot e)).eeprom))
    ∧ (restore_state (boot (restore_state (boot e)).eeprom)).eeprom
        = (restore_state (boot e)).eeprom := by
  have h1 : restore_state (boot e) = save_state (boot e) := restore_state_first_boot _ h
  obtain ⟨o1, o2, o3, o4, o5, o6, o7, o8, o9⟩ := save_state_eeprom_opt (boot e)
  rw [h1]
  have hsent : (boot (save_state (boot e)).eeprom).eeprom OPT_firstboot = FIRSTBOOT := o1
  have h32 : EEPSIZE / 2 = 32 := rfl
  have hslot1 : (boot (save_state (boot e)).eeprom).eeprom 1 = 0 := by
    show (save_state (boot e)).eeprom 1 = 0
    rw [save_state_eeprom_low _ 1 (by omega), save_mode_eeprom]
    rfl
  have hslot0 : ∀ a, a < 1 → (boot (save_state (boot e)).eeprom).eeprom a = 0xff := by
    intro a ha
    have ha0 : a = 0 := by omega
    subst ha0
    show (save_state (boot e)).eeprom 0 = 0xff
    rw [save_state_eeprom_low _ 0 (by omega), save_mode_eeprom]
    rfl
  obtain ⟨hi, -⟩ := restore_state_first (boot (save_state (boot e)).eeprom) 1 (by omega) hsent
    (by rw [hslot1]; decide) hslot0
  obtain ⟨f1, f2, f3, f4, f5, f6, f7, f8, f9, f10⟩ :=
    restore_state_fields (boot (save_state (boot e)).eeprom) hsent
  refine ⟨⟨rfl, rfl, rfl, rfl, rfl, rfl, rfl, rfl, rfl, rfl⟩,
    ⟨o1, o2, o7, o8, o3, o4, o5, o9, o6⟩, ?_, f10⟩
  refine ⟨f1, ?_, ?_, ?_, ?_, ?_, ?_, ?_, ?_, ?_⟩
  · rw [f2]; exact o2
  · rw [f7]; exact o7
  · rw [f8]; exact o8
  · rw [f3]; exact o3
  · rw [f4]; exact o4
  · rw [f5]; exact o5
  · rw [f9]; exact o9
  · rw [f6]; exact o6
  · rw [hi]; exact hslot1

/-- A blank store (every byte erased) is a first boot; reading the result
back gives mode index 0. -/
theorem first_boot_defaults_witness :
    (restore_state (boot (restore_state (boot (fun _ => 0xff))).eeprom)).g_u8mode_idx = 0 :=
  (first_boot_defaults (fun _ => 0xff) (by decide)).2.2.1.2.2.2.2.2.2.2.2.2

/-! ## Maintenance mode -/

theorem blink_g (val : Nat) : ∀ m : Main, (blink val m).g = m.g := by
  induction val with
  | zero => intro m; rfl
  | succ n ih => intro m; simp only [blink]; rw [ih]

theorem save_state_get (var : ConfigVar) (s : State) :
    var.get (save_state s) = var.get s ∧ (save_state s).eeprom var.addr = var.get s := by
  obtain ⟨o1, o2, o3, o4, o5, o6, o7, o8, o9⟩ := save_state_eeprom_opt s
  cases var
  · exact ⟨rfl, o1⟩
  · exact ⟨rfl, o2⟩
  · exact ⟨rfl, o3⟩
  · exact ⟨rfl, o4⟩
  · exact ⟨rfl, o5⟩
  · exact ⟨rfl, o6⟩
  · exact ⟨rfl, o7⟩
  · exact ⟨rfl, o8⟩
  · exact ⟨rfl, o9⟩

theorem ConfigVar.get_set (var : ConfigVar) (x : Nat) (s : State) :
    var.get (var.set x s) = x := by
  cases var <;> rfl

theorem xor_one_twice (x : Nat) : (x ^^^ 1) ^^^ 1 = x := by
  rw [Nat.xor_assoc, Nat.xor_self, Nat.xor_zero]

/-- C12: for every configuration variable passed to `toggle` and every prior
value x of it, the store written by the first `save_state` (the one that
survives a power loss during the acceptance window) holds x XOR 1 at the
address of the variable, and RAM holds x XOR 1 as well; after `toggle` has
returned, both the variable in RAM and the byte stored at its address equal
x again. -/
theorem toggle_commit_revert (var : ConfigVar) (num : Nat) (m : Main) :
    (toggle_commit var num m).g.eeprom var.addr = var.get m.g ^^^ 1
    ∧ var.get (toggle_commit var num m).g = var.get m.g ^^^ 1
    ∧ var.get (toggle var num m).g = var.get m.g
    ∧ (toggle var num m).g.eeprom var.addr = var.get m.g := by
  have hc : (toggle_commit var num m).g
      = save_state (var.set (var.get m.g ^^^ 1) m.g) := by
    simp only [toggle_commit, blink_g]
  have hget : var.get (toggle_commit var num m).g = var.get m.g ^^^ 1 := by
    rw [hc, (save_state_get var _).1, ConfigVar.get_set]
  have ht : (toggle var num m).g
      = save_state (var.set (var.get (toggle_commit var num m).g ^^^ 1)
          (toggle_commit var num m).g) := by
    simp only [toggle, blink_g]
  refine ⟨?_, hget, ?_, ?_⟩
  · rw [hc, (save_state_get var _).2, ConfigVar.get_set]
  · rw [ht, (save_state_get var _).1, ConfigVar.get_set, hget, xor_one_twice]
  · rw [ht, (save_state_get var _).2, ConfigVar.get_set, hget, xor_one_twice]

/-! ## Muggle mode -/

/-- C18: whenever `muggle_mode` is non-zero, for every stored `g_u8modegroup`,
`enable_moon` and `reverse_modes`, `count_modes` yields `g_u8solid_modes` 3
with the levels 11, 29, 50 in cells 0..2 of the list (no moon entry, not
reversed), followed by the four hidden modes, and it leaves the
configuration variables unchanged. -/
theorem count_modes_muggle (past : Nat → Nat) (s : State) (hmug : s.muggle_mode ≠ 0) :
    (count_modes past s).g_u8solid_modes = 3
    ∧ (count_modes past s).g_u8modes 0 = 11
    ∧ (count_modes past s).g_u8modes 1 = 29
    ∧ (count_modes past s).g_u8modes 2 = 50
    ∧ ActiveModeList (count_modes past s)
        = [11, 29, 50, BIKING_STROBE, BATTCHECK, POLICE_STROBE, TURBO]
    ∧ (count_modes past s).g_u8modegroup = s.g_u8modegroup
    ∧ (count_modes past s).enable_moon = s.enable_moon
    ∧ (count_modes past s).reverse_modes = s.reverse_modes
    ∧ (count_modes past s).muggle_mode = s.muggle_mode := by
  obtain ⟨h1, -, h3⟩ := count_modes_body_muggle past s.g_u8modegroup s.enable_moon
    s.reverse_modes s.muggle_mode s.g_u8modes s.g_u8solid_modes s.g_u8mode_cnt hmug
  have hcell : ∀ j, j < 3 → (count_modes past s).g_u8modes j = [11, 29, 50].getD j 0 := by
    intro j hj
    show (count_modes_body past s.g_u8modegroup s.enable_moon s.reverse_modes s.muggle_mode
      s.g_u8modes s.g_u8solid_modes s.g_u8mode_cnt).g_u8modes j = _
    interval_cases j <;>
      simp [count_modes_body, count_solid, copy_hidden, pgm_modegroups, pgm_hiddenmodes,
        modegroups, hiddenmodes, u8, hmug, NUM_MODEGROUPS, poke]
  refine ⟨h1, hcell 0 (by omega), hcell 1 (by omega), hcell 2 (by omega), ?_, rfl, rfl, rfl, rfl⟩
  rw [count_modes_list, h3]
  rfl

/-- Muggle mode over group 7 with moon and reversal set. -/
theorem count_modes_muggle_witness :
    (count_modes flash_declared_order
      { boot (fun _ => 0xff) with muggle_mode := 1, g_u8modegroup := 7,
                                   reverse_modes := 1 }).g_u8solid_modes = 3 :=
  (count_modes_muggle flash_declared_order
    { boot (fun _ => 0xff) with muggle_mode := 1, g_u8modegroup := 7, reverse_modes := 1 }
    (by decide)).1

/-! ## Output ramp controller -/

/-- C16: `set_level(0)` sets both channels to duty 0 whatever the ramp tables
hold; for every level in 1..RAMP_SIZE `set_level` sets the FET channel
`PWM_LVL` to entry level-1 of `ramp_FET` and the 7135 channel `ALT_PWM_LVL`
to entry level-1 of `ramp_7135`, both inside the tables. -/
theorem set_level_spec :
    (∀ fet a7135 : List Nat, set_level_from fet a7135 0 = { PWM_LVL := 0, ALT_PWM_LVL := 0 })
    ∧ set_level 0 = { PWM_LVL := 0, ALT_PWM_LVL := 0 }
    ∧ ∀ level, 1 ≤ level → level ≤ RAMP_SIZE →
        ramp_FET[level - 1]? = some (set_level level).PWM_LVL
        ∧ ramp_7135[level - 1]? = some (set_level level).ALT_PWM_LVL := by
  refine ⟨fun _ _ => rfl, rfl, ?_⟩
  intro level h1 h64
  have h64b : level ≤ 64 := h64
  interval_cases level <;> exact ⟨by decide, by decide⟩

/-- Level 30 is the first with a non-zero FET duty. -/
theorem set_level_spec_witness :
    ramp_FET[30 - 1]? = some (set_level 30).PWM_LVL
    ∧ ramp_7135[30 - 1]? = some (set_level 30).ALT_PWM_LVL :=
  set_level_spec.2.2 30 (by decide) (by decide)

/-- C20, counterexample: `ramp_7135` is not non-decreasing; its entry 62 is
255 and its last entry, 63, is 0. -/
theorem ramp_7135_counterexample :
    ramp_7135[62]? = some 255 ∧ ramp_7135[63]? = some 0
    ∧ ¬ List.Sorted (fun a b => a ≤ b) ramp_7135 := by
  decide

/-- C20, amended: both ramp tables have exactly RAMP_SIZE = 64 entries;
`ramp_FET` is non-decreasing over its whole length; `ramp_7135` is
non-decreasing over its first 63 entries and its last entry, the one for
turbo, is 0. -/
theorem ramp_tables_shape :
    RAMP_SIZE = 64 ∧ ramp_7135.length = RAMP_SIZE ∧ ramp_FET.length = RAMP_SIZE
    ∧ List.Sorted (fun a b => a ≤ b) ramp_FET
    ∧ List.Sorted (fun a b => a ≤ b) (ramp_7135.take 63)
    ∧ ramp_7135[63]? = some 0 := by
  decide

/-! ## Press classification -/

/-- C15: the boot navigation decision as a function of the off-time sample c
and the thresholds CAP_SHORT > CAP_MED.  With `g_u8mode_override` non-zero
nothing changes.  Otherwise a short press (c > CAP_SHORT) applies
`next_mode`; a medium press (CAP_MED < c <= CAP_SHORT) applies `prev_mode`
when `g_u8offtim3` is set and `next_mode` when it is not; a long press
(c <= CAP_MED) keeps the index when memory is on and muggle mode is off and
sets it to 0 when memory is off or muggle mode is on.  Every sample is in
exactly one of the three classes. -/
theorem press_navigate_spec (CAP_SHORT CAP_MED c : Nat) (hth : CAP_MED < CAP_SHORT) (m : Main) :
    (m.g.g_u8mode_override ≠ 0 → press_navigate CAP_SHORT CAP_MED c m = m)
    ∧ (m.g.g_u8mode_override = 0 → c > CAP_SHORT →
        (press_navigate CAP_SHORT CAP_MED c m).g = next_mode m.g)
    ∧ (m.g.g_u8mode_override = 0 → CAP_MED < c → c ≤ CAP_SHORT → m.g.g_u8offtim3 ≠ 0 →
        (press_navigate CAP_SHORT CAP_MED c m).g = prev_mode m.g)
    ∧ (m.g.g_u8mode_override = 0 → CAP_MED < c → c ≤ CAP_SHORT → m.g.g_u8offtim3 = 0 →
        (press_navigate CAP_SHORT CAP_MED c m).g = next_mode m.g)
    ∧ (m.g.g_u8mode_override = 0 → c ≤ CAP_MED → m.g.g_u8memory ≠ 0 → m.g.muggle_mode = 0 →
        (press_navigate CAP_SHORT CAP_MED c m).g = m.g)
    ∧ (m.g.g_u8mode_override = 0 → c ≤ CAP_MED → (m.g.g_u8memory = 0 ∨ m.g.muggle_mode ≠ 0) →
        (press_navigate CAP_SHORT CAP_MED c m).g = { m.g with g_u8mode_idx := 0 })
    ∧ (c > CAP_SHORT ∨ (CAP_MED < c ∧ c ≤ CAP_SHORT) ∨ c ≤ CAP_MED)
    ∧ ¬ (c > CAP_SHORT ∧ (CAP_MED < c ∧ c ≤ CAP_SHORT))
    ∧ ¬ (c > CAP_SHORT ∧ c ≤ CAP_MED)
    ∧ ¬ ((CAP_MED < c ∧ c ≤ CAP_SHORT) ∧ c ≤ CAP_MED) := by
  refine ⟨?_, ?_, ?_, ?_, ?_, ?_, by omega, by omega, by omega, by omega⟩
  · intro ho
    unfold press_navigate
    rw [if_neg ho]
  · intro ho hs
    unfold press_navigate
    rw [if_pos ho, if_pos hs]
  · intro ho hm hs h3
    have hns : ¬ c > CAP_SHORT := by omega
    have hgm : c > CAP_MED := hm
    unfold press_navigate
    rw [if_pos ho, if_neg hns, if_pos hgm, if_pos h3]
  · intro ho hm hs h3
    have hns : ¬ c > CAP_SHORT := by omega
    have hgm : c > CAP_MED := hm
    unfold press_navigate
    rw [if_pos ho, if_neg hns, if_pos hgm, if_neg (not_not.mpr h3)]
  · intro ho hl hmem hmug
    have hns : ¬ c > CAP_SHORT := by omega
    have hnm : ¬ c > CAP_MED := by omega
    have hc : ¬ (m.g.muggle_mode ≠ 0 ∨ m.g.g_u8memory = 0) := by
      rintro (h | h)
      · exact h hmug
      · exact hmem h
    unfold press_navigate
    rw [if_pos ho, if_neg hns, if_neg hnm, if_neg hc]
  · intro ho hl hor
    have hns : ¬ c > CAP_SHORT := by omega
    have hnm : ¬ c > CAP_MED := by omega
    have hc : m.g.muggle_mode ≠ 0 ∨ m.g.g_u8memory = 0 := hor.symm
    unfold press_navigate
    rw [if_pos ho, if_neg hns, if_neg hnm, if_pos hc]

/-- A medium press in the default configuration, from index 0, goes back to
the last entry of the list. -/
theorem press_navigate_spec_witness :
    (press_navigate 200 100 150
      (main_locals (count_modes flash_declared_order (boot (fun _ => 0xff))) 0)).g
      = prev_mode (main_locals (count_modes flash_declared_order (boot (fun _ => 0xff))) 0).g :=
  (press_navigate_spec 200 100 150 (by decide)
    (main_locals (count_modes flash_declared_order (boot (fun _ => 0xff))) 0)).2.2.1
    rfl (by decide) (by decide) (by decide)

/-! ## Regulation loop -/

theorem set_mode_frame (mode : Nat) (m : Main) :
    set_mode mode m = { m with rendered := (set_mode mode m).rendered,
                               pwm := (set_mode mode m).pwm } := rfl

theorem thermal_adjust_frame (temp : Nat) (m : Main) :
    thermal_adjust temp m
      = { m with actual_level := (thermal_adjust temp m).actual_level,
                 overheat_count := (thermal_adjust temp m).overheat_count } := by
  unfold thermal_adjust
  split_ifs <;> rfl

theorem thermal_step_frame (temp : Nat) (m : Main) :
    thermal_step temp m
      = { m with actual_level := (thermal_step temp m).actual_level,
                 overheat_count := (thermal_step temp m).overheat_count,
                 rendered := (thermal_step temp m).rendered,
                 pwm := (thermal_step temp m).pwm } := by
  unfold thermal_step thermal_adjust
  split_ifs <;> rfl

theorem battery_step_frame (ADC_LOW : Nat) (reading : Option Nat) (m : Main) :
    battery_step ADC_LOW reading m
      = { m with actual_level := (battery_step ADC_LOW reading m).actual_level,
                 output := (battery_step ADC_LOW reading m).output,
                 lowbatt_cnt := (battery_step ADC_LOW reading m).lowbatt_cnt,
                 rendered := (battery_step ADC_LOW reading m).rendered,
                 pwm := (battery_step ADC_LOW reading m).pwm,
                 halted := (battery_step ADC_LOW reading m).halted } := by
  cases reading with
  | none => rfl
  | some v =>
    simp only [battery_step]
    split_ifs <;> rfl

theorem thermal_step_g (temp : Nat) (m : Main) :
    (thermal_step temp m).g = m.g ∧ (thermal_step temp m).output = m.output
    ∧ (thermal_step temp m).halted = m.halted := by
  rw [thermal_step_frame]
  exact ⟨rfl, rfl, rfl⟩

theorem thermal_step_hot (temp : Nat) (m : Main) (hhot : temp ≥ m.g.g_u8maxtemp)
    (hb : m.actual_level < 256) :
    (m.overheat_count + 1 ≤ 15 →
      (thermal_step temp m).actual_level = m.actual_level
      ∧ (thermal_step temp m).overheat_count = m.overheat_count + 1)
    ∧ (m.overheat_count = 15 → m.actual_level > RAMP_SIZE / 8 →
      (thermal_step temp m).actual_level = m.actual_level - 1
      ∧ (thermal_step temp m).overheat_count = 0) := by
  have hhot2 : temp ≥ (set_mode m.actual_level m).g.g_u8maxtemp := hhot
  have h8 : RAMP_SIZE / 8 = 8 := rfl
  constructor
  · intro hc
    have hu : u8 (m.overheat_count + 1) = m.overheat_count + 1 := by
      simp only [u8]; omega
    have hn : ¬ (u8 ((set_mode m.actual_level m).overheat_count + 1) > 15
        ∧ (set_mode m.actual_level m).actual_level > RAMP_SIZE / 8) := by
      show ¬ (u8 (m.overheat_count + 1) > 15 ∧ m.actual_level > RAMP_SIZE / 8)
      rw [hu]; omega
    unfold thermal_step thermal_adjust
    rw [if_pos hhot2, if_neg hn]
    exact ⟨rfl, hu⟩
  · intro hc hl
    have hy : u8 ((set_mode m.actual_level m).overheat_count + 1) > 15
        ∧ (set_mode m.actual_level m).actual_level > RAMP_SIZE / 8 := by
      show u8 (m.overheat_count + 1) > 15 ∧ m.actual_level > RAMP_SIZE / 8
      rw [hc]
      exact ⟨by decide, hl⟩
    unfold thermal_step thermal_adjust
    rw [if_pos hhot2, if_pos hy]
    refine ⟨?_, rfl⟩
    show u8 (m.actual_level + 255) = m.actual_level - 1
    simp only [u8]
    omega

theorem thermal_run_append (xs ys : List Nat) (m : Main) :
    thermal_run (xs ++ ys) m = thermal_run ys (thermal_run xs m) := by
  simp only [thermal_run, List.foldl_append]

theorem thermal_run_hot : ∀ (temps : List Nat) (m : Main),
    (∀ t ∈ temps, t ≥ m.g.g_u8maxtemp) → m.actual_level < 256 →
    m.overheat_count + temps.length ≤ 15 →
    (thermal_run temps m).actual_level = m.actual_level
    ∧ (thermal_run temps m).overheat_count = m.overheat_count + temps.length
    ∧ (thermal_run temps m).g = m.g := by
  intro temps
  induction temps with
  | nil => intro m _ _ _; exact ⟨rfl, rfl, rfl⟩
  | cons t ts ih =>
    intro m hhot hb hc
    have hlen : (t :: ts).length = ts.length + 1 := rfl
    have ht : t ≥ m.g.g_u8maxtemp := hhot t (List.mem_cons_self _ _)
    obtain ⟨h1, h2⟩ := (thermal_step_hot t m ht hb).1 (by omega)
    obtain ⟨hg, -, -⟩ := thermal_step_g t m
    have := ih (thermal_step t m)
      (by intro x hx; rw [hg]; exact hhot x (List.mem_cons_of_mem _ hx))
      (by rw [h1]; exact hb) (by rw [h2]; omega)
    obtain ⟨i1, i2, i3⟩ := this
    show (thermal_run ts (thermal_step t m)).actual_level = _
      ∧ (thermal_run ts (thermal_step t m)).overheat_count = _
      ∧ (thermal_run ts (thermal_step t m)).g = _
    exact ⟨by rw [i1, h1], by rw [i2, h2]; omega, by rw [i3, hg]⟩

/-- C13: in the regulation loop, starting with `overheat_count` 0 and
`actual_level` L above RAMP_SIZE/8, over 16 consecutive thermal steps whose
temperature sample is at least `g_u8maxtemp`: after each of the first 15
steps `actual_level` is still L (and `overheat_count` is the number of steps
made), and after the 16th `actual_level` is L - 1 and `overheat_count` is 0. -/
theorem thermal_debounce (m : Main) (temps : List Nat) (h0 : m.overheat_count = 0)
    (hL : m.actual_level > RAMP_SIZE / 8) (hb : m.actual_level < 256)
    (hlen : temps.length = 16) (hhot : ∀ t ∈ temps, t ≥ m.g.g_u8maxtemp) :
    (∀ k, k ≤ 15 →
      (thermal_run (temps.take k) m).actual_level = m.actual_level
      ∧ (thermal_run (temps.take k) m).overheat_count = k)
    ∧ (thermal_run temps m).actual_level = m.actual_level - 1
    ∧ (thermal_run temps m).overheat_count = 0 := by
  have hpre : ∀ k, k ≤ 15 →
      (thermal_run (temps.take k) m).actual_level = m.actual_level
      ∧ (thermal_run (temps.take k) m).overheat_count = k
      ∧ (thermal_run (temps.take k) m).g = m.g := by
    intro k hk
    have hlk : (temps.take k).length = k := by rw [List.length_take]; omega
    obtain ⟨a1, a2, a3⟩ := thermal_run_hot (temps.take k) m
      (fun t ht => hhot t (List.mem_of_mem_take ht)) hb (by omega)
    exact ⟨a1, by rw [a2, hlk, h0]; omega, a3⟩
  refine ⟨fun k hk => ⟨(hpre k hk).1, (hpre k hk).2.1⟩, ?_⟩
  obtain ⟨p1, p2, p3⟩ := hpre 15 (by omega)
  have hd : (temps.drop 15).length = 1 := by rw [List.length_drop]; omega
  obtain ⟨x, hx⟩ := List.length_eq_one.mp hd
  have hsplit : temps = temps.take 15 ++ [x] := by rw [← hx, List.take_append_drop]
  have hxhot : x ≥ (thermal_run (temps.take 15) m).g.g_u8maxtemp := by
    rw [p3]
    apply hhot
    rw [hsplit]
    simp
  obtain ⟨q1, q2⟩ := (thermal_step_hot x (thermal_run (temps.take 15) m) hxhot
    (by rw [p1]; exact hb)).2 p2 (by rw [p1]; exact hL)
  have hrun : thermal_run temps m = thermal_step x (thermal_run (temps.take 15) m) := by
    conv_lhs => rw [hsplit]
    rw [thermal_run_append]
    rfl
  rw [hrun, q1, q2, p1]
  exact ⟨rfl, rfl⟩

/-- Sixteen samples of 84, five above the default ceiling 79, at turbo in
the default configuration: the level drops from 64 to 63. -/
theorem thermal_debounce_witness :
    (thermal_run (List.replicate 16 84)
      (main_locals { count_modes flash_declared_order (boot (fun _ => 0xff)) with
        g_u8mode_idx := 6 } 0)).actual_level = 64 - 1 :=
  (thermal_debounce
    (main_locals { count_modes flash_declared_order (boot (fun _ => 0xff)) with
      g_u8mode_idx := 6 } 0)
    (List.replicate 16 84) rfl (by decide) (by decide) (by decide) (by decide)).2.1

/-- C19: one thermal step, one battery step and one whole pass through the
steady-mode branch leave the global variables and the EEPROM as they were,
in particular `g_u8mode_idx` and every byte of the store; the thermal step
changes nothing but `actual_level`, `overheat_count` and the rendered
output, the battery step nothing but `actual_level`, `output`,
`lowbatt_cnt`, the rendered output and the halt flag. -/
theorem regulation_frame (ADC_LOW temp : Nat) (reading : Option Nat) (m : Main) :
    (thermal_step temp m).g = m.g
    ∧ (battery_step ADC_LOW reading m).g = m.g
    ∧ (steady_iteration ADC_LOW temp reading m).g = m.g
    ∧ (steady_iteration ADC_LOW temp reading m).g.g_u8mode_idx = m.g.g_u8mode_idx
    ∧ (∀ a, (steady_iteration ADC_LOW temp reading m).g.eeprom a = m.g.eeprom a)
    ∧ thermal_step temp m
        = { m with actual_level := (thermal_step temp m).actual_level,
                   overheat_count := (thermal_step temp m).overheat_count,
                   rendered := (thermal_step temp m).rendered,
                   pwm := (thermal_step temp m).pwm }
    ∧ battery_step ADC_LOW reading m
        = { m with actual_level := (battery_step ADC_LOW reading m).actual_level,
                   output := (battery_step ADC_LOW reading m).output,
                   lowbatt_cnt := (battery_step ADC_LOW reading m).lowbatt_cnt,
                   rendered := (battery_step ADC_LOW reading m).rendered,
                   pwm := (battery_step ADC_LOW reading m).pwm,
                   halted := (battery_step ADC_LOW reading m).halted } := by
  have ht : (thermal_step temp m).g = m.g := (thermal_step_g temp m).1
  have hb : ∀ x : Main, (battery_step ADC_LOW reading x).g = x.g := by
    intro x
    rw [battery_step_frame]
  have hs : (steady_iteration ADC_LOW temp reading m).g = m.g := by
    unfold steady_iteration
    split_ifs
    · rfl
    · rw [hb]
      exact ht
  exact ⟨ht, hb m, hs, by rw [hs], fun a => by rw [hs], thermal_step_frame temp m,
    battery_step_frame ADC_LOW reading m⟩

/-! ## Battery step-down -/

theorem battery_step_high (ADC_LOW v : Nat) (m : Main) (hv : ADC_LOW ≤ v) :
    battery_step ADC_LOW (some v) m = { m with lowbatt_cnt := 0 } := by
  have hn : ¬ v < ADC_LOW := by omega
  simp only [battery_step, if_neg hn]
  rfl

theorem battery_step_low (ADC_LOW v : Nat) (m : Main) (hv : v < ADC_LOW)
    (hc : m.lowbatt_cnt + 1 < 8) :
    battery_step ADC_LOW (some v) m = { m with lowbatt_cnt := m.lowbatt_cnt + 1 } := by
  have hu : u8 (m.lowbatt_cnt + 1) = m.lowbatt_cnt + 1 := by simp only [u8]; omega
  have hn : ¬ (m.lowbatt_cnt + 1 ≥ 8) := by omega
  simp only [battery_step, if_pos hv, hu, if_neg hn]

theorem battery_step_eighth (ADC_LOW v : Nat) (m : Main) (hv : v < ADC_LOW)
    (hc : m.lowbatt_cnt = 7) :
    (m.actual_level > RAMP_SIZE →
      battery_step ADC_LOW (some v) m
        = battery_finish { m with lowbatt_cnt := 8, actual_level := RAMP_SIZE / 2 })
    ∧ (1 < m.actual_level → m.actual_level ≤ RAMP_SIZE →
      battery_step ADC_LOW (some v) m
        = battery_finish
            { m with lowbatt_cnt := 8,
                     actual_level := (m.actual_level >>> 2) + (m.actual_level >>> 1) })
    ∧ (m.actual_level ≤ 1 →
      battery_step ADC_LOW (some v) m
        = { m with lowbatt_cnt := 8, pwm := set_level 0, halted := true }) := by
  have hu : u8 (m.lowbatt_cnt + 1) = 8 := by rw [hc]; rfl
  have h8 : (8 : Nat) ≥ 8 := le_refl 8
  have h64 : RAMP_SIZE = 64 := rfl
  refine ⟨?_, ?_, ?_⟩
  · intro hl
    simp only [battery_step, if_pos hv, hu, if_pos h8, if_pos hl]
  · intro h1 hl
    have hn : ¬ m.actual_level > RAMP_SIZE := by omega
    have hh : m.actual_level > 1 := h1
    have hw : u8 ((m.actual_level >>> 2) + (m.actual_level >>> 1))
        = (m.actual_level >>> 2) + (m.actual_level >>> 1) := by
      simp only [u8, Nat.shiftRight_eq_div_pow]
      omega
    simp only [battery_step, if_pos hv, hu, if_pos h8, if_neg hn, if_pos hh, hw]
  · intro h1
    have hn : ¬ m.actual_level > RAMP_SIZE := by omega
    have hh : ¬ m.actual_level > 1 := by omega
    simp only [battery_step, if_pos hv, hu, if_pos h8, if_neg hn, if_neg hh]

theorem battery_run_append (ADC_LOW : Nat) (xs ys : List (Option Nat)) (m : Main) :
    battery_run ADC_LOW (xs ++ ys) m = battery_run ADC_LOW ys (battery_run ADC_LOW xs m) := by
  simp only [battery_run, List.foldl_append]

theorem battery_run_low (ADC_LOW : Nat) : ∀ (vs : List Nat) (m : Main),
    (∀ v ∈ vs, v < ADC_LOW) → m.halted = false → m.lowbatt_cnt + vs.length < 8 →
    battery_run ADC_LOW (vs.map some) m = { m with lowbatt_cnt := m.lowbatt_cnt + vs.length } := by
  intro vs
  induction vs with
  | nil => intro m _ _ _; rfl
  | cons v ws ih =>
    intro m hlow hh hc
    have hlen : (v :: ws).length = ws.length + 1 := rfl
    have hstep := battery_step_low ADC_LOW v m (hlow v (List.mem_cons_self _ _)) (by omega)
    have hrun : battery_run ADC_LOW ((v :: ws).map some) m
        = battery_run ADC_LOW (ws.map some) (battery_step ADC_LOW (some v) m) := by
      simp only [battery_run, List.map_cons, List.foldl_cons, hh]
      rfl
    rw [hrun, hstep, ih { m with lowbatt_cnt := m.lowbatt_cnt + 1 }
      (fun x hx => hlow x (List.mem_cons_of_mem _ hx)) hh (by simp only; omega)]
    simp only [hlen]
    congr 1
    omega

/-- C14: the battery step.  A reading at or above `ADC_LOW` sets
`lowbatt_cnt` to 0 and changes nothing else; a reading below `ADC_LOW` that
does not bring `lowbatt_cnt` to 8 only counts.  The reading that brings it
to 8 takes a step: a level above RAMP_SIZE becomes RAMP_SIZE/2 = 32, a level
l in 2..RAMP_SIZE becomes (l>>2)+(l>>1), and at a level of 1 or less the
output is switched off and the processor halted; after a step that does not
halt, `lowbatt_cnt` is 0 and `output` equals the new level.  From
`lowbatt_cnt` 0, eight consecutive low readings make seven counting passes
and then the step; in particular level 40 becomes 30. -/
theorem battery_step_down (ADC_LOW : Nat) (m : Main) :
    (∀ v, ADC_LOW ≤ v → battery_step ADC_LOW (some v) m = { m with lowbatt_cnt := 0 })
    ∧ (∀ v, v < ADC_LOW → m.lowbatt_cnt + 1 < 8 →
        battery_step ADC_LOW (some v) m = { m with lowbatt_cnt := m.lowbatt_cnt + 1 })
    ∧ (∀ v, v < ADC_LOW → m.lowbatt_cnt = 7 →
        (m.actual_level > RAMP_SIZE →
          (battery_step ADC_LOW (some v) m).actual_level = 32
          ∧ (battery_step ADC_LOW (some v) m).output = 32
          ∧ (battery_step ADC_LOW (some v) m).lowbatt_cnt = 0
          ∧ (battery_step ADC_LOW (some v) m).halted = m.halted)
        ∧ (2 ≤ m.actual_level → m.actual_level ≤ RAMP_SIZE →
          (battery_step ADC_LOW (some v) m).actual_level
            = (m.actual_level >>> 2) + (m.actual_level >>> 1)
          ∧ (battery_step ADC_LOW (some v) m).output
            = (m.actual_level >>> 2) + (m.actual_level >>> 1)
          ∧ (battery_step ADC_LOW (some v) m).lowbatt_cnt = 0
          ∧ (battery_step ADC_LOW (some v) m).halted = m.halted)
        ∧ (m.actual_level ≤ 1 →
          (battery_step ADC_LOW (some v) m).pwm = { PWM_LVL := 0, ALT_PWM_LVL := 0 }
          ∧ (battery_step ADC_LOW (some v) m).halted = true))
    ∧ (∀ vs : List Nat, vs.length = 8 → (∀ v ∈ vs, v < ADC_LOW) →
        m.lowbatt_cnt = 0 → m.halted = false →
        (∀ k, k < 8 →
          battery_run ADC_LOW ((vs.take k).map some) m = { m with lowbatt_cnt := k })
        ∧ battery_run ADC_LOW (vs.map some) m
            = battery_step ADC_LOW (some (vs.getD 7 0)) { m with lowbatt_cnt := 7 }
        ∧ (m.actual_level = 40 →
            (battery_run ADC_LOW (vs.map some) m).actual_level = 30
            ∧ (battery_run ADC_LOW (vs.map some) m).output = 30
            ∧ (battery_run ADC_LOW (vs.map some) m).lowbatt_cnt = 0)) := by
  refine ⟨fun v hv => battery_step_high ADC_LOW v m hv,
    fun v hv hc => battery_step_low ADC_LOW v m hv hc, ?_, ?_⟩
  · intro v hv hc
    obtain ⟨e1, e2, e3⟩ := battery_step_eighth ADC_LOW v m hv hc
    refine ⟨?_, ?_, ?_⟩
    · intro hl
      rw [e1 hl]
      exact ⟨rfl, rfl, rfl, rfl⟩
    · intro h2 hl
      rw [e2 (by omega) hl]
      exact ⟨rfl, rfl, rfl, rfl⟩
    · intro h1
      rw [e3 h1]
      exact ⟨rfl, rfl⟩
  · intro vs hlen hlow h0 hh
    have hpre : ∀ k, k < 8 →
        battery_run ADC_LOW ((vs.take k).map some) m = { m with lowbatt_cnt := k } := by
      intro k hk
      have hlk : (vs.take k).length = k := by rw [List.length_take]; omega
      rw [battery_run_low ADC_LOW (vs.take k) m (fun v hv => hlow v (List.mem_of_mem_take hv)) hh
        (by omega), hlk, h0, Nat.zero_add]
    have hd : (vs.drop 7).length = 1 := by rw [List.length_drop]; omega
    obtain ⟨x, hx⟩ := List.length_eq_one.mp hd
    have hsplit : vs = vs.take 7 ++ [x] := by rw [← hx, List.take_append_drop]
    have hx7 : vs.getD 7 0 = x := by
      have h7 : (vs.take 7).length = 7 := by rw [List.length_take]; omega
      rw [hsplit, List.getD_append_right _ _ _ _ (by omega), h7]
      rfl
    have hxlow : x < ADC_LOW := by
      apply hlow
      rw [hsplit]
      simp
    have hrun : battery_run ADC_LOW (vs.map some) m
        = battery_step ADC_LOW (some x) { m with lowbatt_cnt := 7 } := by
      conv_lhs => rw [hsplit]
      rw [List.map_append, battery_run_append, hpre 7 (by omega)]
      simp only [battery_run, List.map_cons, List.map_nil, List.foldl_cons, List.foldl_nil, hh]
      rfl
    refine ⟨hpre, by rw [hrun, hx7], ?_⟩
    intro h40
    obtain ⟨-, e2, -⟩ := battery_step_eighth ADC_LOW x { m with lowbatt_cnt := 7 } hxlow rfl
    have h64 : RAMP_SIZE = 64 := rfl
    rw [hrun, e2 (by simp only; omega) (by simp only; omega)]
    simp only [battery_finish, set_mode, h40]
    exact ⟨by decide, by decide, trivial⟩

/-- Level 40 with eight readings of 100 against a threshold of 125. -/
theorem battery_step_down_witness :
    (battery_run 125 ((List.replicate 8 100).map some)
      { main_locals (boot (fun _ => 0xff)) 0 with actual_level := 40, output := 40 }).actual_level
      = 30 :=
  (((battery_step_down 125
      { main_locals (boot (fun _ => 0xff)) 0 with actual_level := 40, output := 40 }).2.2.2
    (List.replicate 8 100) (by decide) (by decide) rfl rfl).2.2 rfl).1

/-! ## Soft start -/

theorem int_lor_zero (x : Int) : Int.lor x 0 = x := by
  cases x with
  | ofNat n => simp [Int.lor]
  | negSucc n => simp [Int.lor, Nat.ldiff]

theorem int_lor_one (x : Int) : Int.lor x 1 = 2 * (x / 2) + 1 := by
  have h := Int.lor_bit (Int.bodd x) (Int.div2 x) true 0
  rw [Int.bit_decomp] at h
  have h1 : Int.bit true 0 = 1 := by decide
  rw [h1, int_lor_zero, Bool.or_true] at h
  rw [h, Int.bit_val, Int.div2_val]
  rfl

theorem int_shiftRight_two (x : Int) : Int.shiftRight x 2 = x / 4 := by
  have := Int.shiftRight_eq_div_pow x 2
  simpa using this

/-- The new level after one tick, in plain integer arithmetic: with d the
difference target - actual reduced to the `int8_t` range, the level moves by
d/4 (rounded down) with its lowest bit set when d is not 0, and stays when d
is 0. -/
theorem set_mode_tick_eq (t a : Nat) :
    (set_mode_tick t a : Int)
      = ((a : Int) + int8 (if int8 ((t : Int) - a) ≠ 0 then 2 * (int8 ((t : Int) - a) / 4 / 2) + 1
          else int8 ((t : Int) - a) / 4)) % 256 := by
  unfold set_mode_tick
  simp only [int_shiftRight_two]
  split_ifs with h
  · rw [int_lor_one, Int.toNat_of_nonneg (Int.emod_nonneg _ (by decide))]
  · rw [int_lor_zero, Int.toNat_of_nonneg (Int.emod_nonneg _ (by decide))]

/-- C17, counterexample: from level 0 to target 64 the difference is 64 and
max(1, 64/4) is 16, but one tick renders level 17; from level 64 to target 0
one tick renders level 49, a step of 15. -/
theorem set_mode_tick_counterexample :
    set_mode_tick 64 0 = 17 ∧ max 1 ((64 - 0) / 4) = 16
    ∧ set_mode_tick 0 64 = 49 ∧ 64 - 49 = 15 := by
  refine ⟨by decide, by decide, ?_, by decide⟩
  have h := set_mode_tick_eq 0 64
  simp only [int8] at h
  omega

/-- C17, amended: in `set_mode`, for every target and current level in
0..RAMP_SIZE with difference D = target - actual not 0, one tick moves the
rendered level toward the target by (D >> 2) | 1 in 8-bit signed arithmetic:
by 2 * (D / 8) + 1 when D > 0 and by 2 * ((|D| + 7) / 8) - 1 when D < 0.  This
step is odd, at least 1, at most |D|, and differs from max(1, |D|/4) by at
most 1. -/
theorem set_mode_tick_step (t a : Nat) (ht : t ≤ RAMP_SIZE) (ha : a ≤ RAMP_SIZE) (hne : t ≠ a) :
    (a < t → set_mode_tick t a = a + (2 * ((t - a) / 8) + 1)
      ∧ set_mode_tick t a ≤ t
      ∧ 2 * ((t - a) / 8) + 1 ≤ max 1 ((t - a) / 4) + 1
      ∧ max 1 ((t - a) / 4) ≤ 2 * ((t - a) / 8) + 1)
    ∧ (t < a → set_mode_tick t a + (2 * ((a - t + 7) / 8) - 1) = a
      ∧ t ≤ set_mode_tick t a
      ∧ 1 ≤ 2 * ((a - t + 7) / 8) - 1
      ∧ 2 * ((a - t + 7) / 8) - 1 ≤ max 1 ((a - t) / 4) + 1
      ∧ max 1 ((a - t) / 4) ≤ 2 * ((a - t + 7) / 8) - 1 + 1) := by
  have h64 : RAMP_SIZE = 64 := rfl
  have h := set_mode_tick_eq t a
  have hd : int8 ((t : Int) - a) = (t : Int) - a := by unfold int8; omega
  rw [hd] at h
  have hnz : (t : Int) - a ≠ 0 := by omega
  rw [if_pos hnz] at h
  have hs : int8 (2 * (((t : Int) - a) / 4 / 2) + 1) = 2 * (((t : Int) - a) / 4 / 2) + 1 := by
    unfold int8; omega
  rw [hs] at h
  have hq : ((t : Int) - a) / 4 / 2 = ((t : Int) - a) / 8 := by omega
  rw [hq] at h
  have hlo : 0 ≤ (a : Int) + (2 * (((t : Int) - a) / 8) + 1) := by omega
  have hhi : (a : Int) + (2 * (((t : Int) - a) / 8) + 1) < 256 := by omega
  rw [Int.emod_eq_of_lt hlo hhi] at h
  constructor
  · intro hlt
    have hm : max 1 ((t - a) / 4) = if (t - a) / 4 = 0 then 1 else (t - a) / 4 := by
      split_ifs <;> omega
    rw [hm]
    split_ifs <;> omega
  · intro hlt
    have hm : max 1 ((a - t) / 4) = if (a - t) / 4 = 0 then 1 else (a - t) / 4 := by
      split_ifs <;> omega
    rw [hm]
    split_ifs <;> omega

/-- From level 8 down to target 0 one tick renders level 7: a step of 1,
where max(1, 8/4) is 2. -/
theorem set_mode_tick_step_witness :
    set_mode_tick 0 8 + (2 * ((8 - 0 + 7) / 8) - 1) = 8 :=
  ((set_mode_tick_step 0 8 (by decide) (by decide) (by decide)).2 (by decide)).1

theorem set_mode_tick_lt (t a : Nat) : set_mode_tick t a < 256 := by
  have h := set_mode_tick_eq t a
  omega

/-- One tick brings the rendered level strictly closer to the target, in the
signed 8-bit distance, unless it is there already. -/
theorem set_mode_tick_closer (t a : Nat) (ht : t < 256) (ha : a < 256) :
    (a = t → set_mode_tick t a = t)
    ∧ (a ≠ t →
        (int8 ((t : Int) - (set_mode_tick t a : Nat))).natAbs < (int8 ((t : Int) - a)).natAbs) := by
  have h := set_mode_tick_eq t a
  have hq : int8 ((t : Int) - a) / 4 / 2 = int8 ((t : Int) - a) / 8 := by omega
  rw [hq] at h
  constructor
  · intro hat
    subst hat
    have hz : int8 ((a : Int) - a) = 0 := by unfold int8; omega
    rw [hz] at h
    simp only [int8] at h
    omega
  · intro hne
    have hnz : int8 ((t : Int) - a) ≠ 0 := by unfold int8; omega
    rw [if_pos hnz] at h
    have hdr : -128 ≤ int8 ((t : Int) - a) ∧ int8 ((t : Int) - a) ≤ 127 := by
      unfold int8; omega
    have hdm : (int8 ((t : Int) - a) - ((t : Int) - a)) % 256 = 0 := by unfold int8; omega
    generalize int8 ((t : Int) - a) = d at *
    have hs : int8 (2 * (d / 8) + 1) = 2 * (d / 8) + 1 := by unfold int8; omega
    rw [hs] at h
    have hnew : int8 ((t : Int) - (set_mode_tick t a : Nat)) = d - (2 * (d / 8) + 1) := by
      unfold int8; omega
    rw [hnew]
    omega

theorem set_mode_loop_reaches (t : Nat) (ht : t < 256) : ∀ (n a : Nat) (p : Pwm), a < 256 →
    (int8 ((t : Int) - a)).natAbs ≤ n → ∀ k,
    set_mode_loop t (n + 1 + k) a p = (t, set_level t) := by
  intro n
  induction n with
  | zero =>
    intro a p ha hd k
    have hat : a = t := by
      unfold int8 at hd
      omega
    have htick := (set_mode_tick_closer t a ht ha).1 hat
    rw [show 0 + 1 + k = k + 1 by omega]
    simp only [set_mode_loop, htick, ne_eq, not_true_eq_false, if_false]
  | succ n ih =>
    intro a p ha hd k
    rw [show n + 1 + 1 + k = (n + 1 + k) + 1 by omega]
    simp only [set_mode_loop]
    split_ifs with hne
    · have hat : a ≠ t := by
        intro hat
        exact hne ((set_mode_tick_closer t a ht ha).1 hat).symm
      have hlt := (set_mode_tick_closer t a ht ha).2 hat
      exact ih _ _ (set_mode_tick_lt t a) (by omega) k
    · have he : t = set_mode_tick t a := not_not.mp hne
      rw [← he]

/-- `set_mode` returns with the rendered level equal to its argument, for
every 8-bit argument and every 8-bit level rendered before: the signed
distance is at most 128 and shrinks with every pass, so 129 passes are
enough and the 256 given to the loop are never used up. -/
theorem set_mode_reaches (mode : Nat) (m : Main) (hm : mode < 256) (hr : m.rendered < 256) :
    (∀ k p, set_mode_loop mode (129 + k) m.rendered p = (mode, set_level mode))
    ∧ (set_mode mode m).rendered = mode
    ∧ (set_mode mode m).pwm = set_level mode := by
  have hd : (int8 ((mode : Int) - m.rendered)).natAbs ≤ 128 := by
    unfold int8
    omega
  have h := fun k p => set_mode_loop_reaches mode hm 128 m.rendered p hr hd k
  have h256 := h 127 m.pwm
  refine ⟨h, ?_, ?_⟩
  · show (set_mode_loop mode 256 m.rendered m.pwm).1 = mode
    rw [show (256 : Nat) = 128 + 1 + 127 by rfl, h256]
  · show (set_mode_loop mode 256 m.rendered m.pwm).2 = set_level mode
    rw [show (256 : Nat) = 128 + 1 + 127 by rfl, h256]

/-! ## Soft start: termination and overshoot -/

theorem set_mode_loop_trace (t : Nat) : ∀ (fuel a : Nat) (p : Pwm),
    (set_mode_loop t fuel a p).1 = ((set_mode_trace t fuel a).getLast?).getD a := by
  intro fuel
  induction fuel with
  | zero => intro a p; rfl
  | succ n ih =>
    intro a p
    simp only [set_mode_loop, set_mode_trace]
    split_ifs with h
    · rw [ih]
      cases hc : set_mode_trace t n (set_mode_tick t a) with
      | nil => rfl
      | cons x xs =>
        rw [List.getLast?_cons_cons, List.getLast?_eq_getLast _ (List.cons_ne_nil x xs)]
        rfl
    · rfl

theorem set_mode_trace_succ (t fuel a : Nat) :
    set_mode_trace t (fuel + 1) a
      = if t ≠ set_mode_tick t a then
          set_mode_tick t a :: set_mode_trace t fuel (set_mode_tick t a)
        else [set_mode_tick t a] := rfl

theorem set_mode_trace_reaches (t : Nat) (ht : t < 256) : ∀ (n a : Nat), a < 256 →
    (int8 ((t : Int) - a)).natAbs ≤ n → ∀ k,
    set_mode_trace t (n + 1 + k) a = set_mode_trace t (n + 1) a
    ∧ (set_mode_trace t (n + 1) a).getLast? = some t
    ∧ 1 ≤ (set_mode_trace t (n + 1) a).length
    ∧ (set_mode_trace t (n + 1) a).length ≤ n + 1 := by
  intro n
  induction n with
  | zero =>
    intro a ha hd k
    have hat : a = t := by
      unfold int8 at hd
      omega
    have htick := (set_mode_tick_closer t a ht ha).1 hat
    rw [show 0 + 1 + k = k + 1 by omega]
    simp [set_mode_trace, htick]
  | succ n ih =>
    intro a ha hd k
    rw [show n + 1 + 1 + k = (n + 1 + k) + 1 by omega, set_mode_trace_succ t (n + 1 + k) a,
      set_mode_trace_succ t (n + 1) a]
    by_cases hne : t ≠ set_mode_tick t a
    · have hat : a ≠ t := by
        intro hat
        exact hne ((set_mode_tick_closer t a ht ha).1 hat).symm
      have hlt := (set_mode_tick_closer t a ht ha).2 hat
      obtain ⟨i1, i2, i3, i4⟩ := ih (set_mode_tick t a) (set_mode_tick_lt t a) (by omega) k
      rw [if_pos hne, if_pos hne]
      refine ⟨by rw [i1], ?_, by simp, by simp only [List.length_cons]; omega⟩
      cases hc : set_mode_trace t (n + 1) (set_mode_tick t a) with
      | nil => rw [hc] at i3; simp at i3
      | cons x xs => rw [List.getLast?_cons_cons, ← hc]; exact i2
    · have he : t = set_mode_tick t a := not_not.mp hne
      rw [if_neg hne, if_neg hne]
      refine ⟨rfl, by simp [← he], by simp, by simp⟩

/-- C21: for every 8-bit target level and every 8-bit level rendered before,
the do-while loop of `set_mode` makes at least one and at most 129 passes
and exits with the rendered level equal to the target; any amount of fuel
from 129 on gives the same passes, so the 256 given are not used up.  When
the two levels are equal already, it makes exactly one pass, whose step is
0. -/
theorem set_mode_terminates (mode : Nat) (m : Main) (hm : mode < 256) (hr : m.rendered < 256) :
    (set_mode mode m).rendered = mode
    ∧ (set_mode_trace mode 256 m.rendered).getLast? = some mode
    ∧ 1 ≤ (set_mode_trace mode 256 m.rendered).length
    ∧ (set_mode_trace mode 256 m.rendered).length ≤ 129
    ∧ (∀ k, set_mode_trace mode (129 + k) m.rendered = set_mode_trace mode 256 m.rendered)
    ∧ (∀ k p, set_mode_loop mode (129 + k) m.rendered p = (mode, set_level mode))
    ∧ (m.rendered = mode →
        set_mode_trace mode 256 m.rendered = [mode] ∧ set_mode_tick mode m.rendered = mode) := by
  have hd : (int8 ((mode : Int) - m.rendered)).natAbs ≤ 128 := by
    unfold int8
    omega
  obtain ⟨r1, r2, r3⟩ := set_mode_reaches mode m hm hr
  have ht := set_mode_trace_reaches mode hm 128 m.rendered hr hd
  have h256 : set_mode_trace mode 256 m.rendered = set_mode_trace mode (128 + 1) m.rendered :=
    (ht 127).1
  obtain ⟨-, t2, t3, t4⟩ := ht 0
  refine ⟨r2, by rw [h256]; exact t2, by rw [h256]; exact t3, by rw [h256]; exact t4, ?_, r1, ?_⟩
  · intro k
    rw [h256, show 129 + k = 128 + 1 + k by omega]
    exact (ht k).1
  · intro he
    have htick := (set_mode_tick_closer mode m.rendered hm hr).1 he
    refine ⟨?_, htick⟩
    rw [show (256 : Nat) = 255 + 1 by rfl]
    simp [set_mode_trace, htick]

/-- From the reset level 0 to the target 200, which lies below 0 in signed
8-bit distance. -/
theorem set_mode_terminates_witness :
    (set_mode 200 (main_locals (boot (fun _ => 0xff)) 0)).rendered = 200 :=
  (set_mode_terminates 200 (main_locals (boot (fun _ => 0xff)) 0) (by decide) (by decide)).1

theorem set_mode_tick_between (t a : Nat) (ht : t ≤ RAMP_SIZE) (ha : a ≤ RAMP_SIZE) :
    ((a ≤ set_mode_tick t a ∧ set_mode_tick t a ≤ t) ∨ (t ≤ set_mode_tick t a ∧ set_mode_tick t a ≤ a))
    ∧ (a ≠ t →
        ((t : Int) - (set_mode_tick t a : Nat)).natAbs < ((t : Int) - a).natAbs) := by
  have h64 : RAMP_SIZE = 64 := rfl
  by_cases hat : a = t
  · have h := (set_mode_tick_closer t a (by omega) (by omega)).1 hat
    exact ⟨Or.inl (by omega), fun hne => absurd hat hne⟩
  · obtain ⟨hup, hdown⟩ := set_mode_tick_step t a ht ha (fun h => hat h.symm)
    rcases Nat.lt_or_gt_of_ne hat with hlt | hgt
    · obtain ⟨e1, e2, -, -⟩ := hup hlt
      exact ⟨Or.inl (by omega), fun _ => by omega⟩
    · obtain ⟨e1, e2, e3, -, -⟩ := hdown hgt
      exact ⟨Or.inr (by omega), fun _ => by omega⟩

theorem set_mode_trace_between (t : Nat) (ht : t ≤ RAMP_SIZE) : ∀ (fuel a : Nat),
    a ≤ RAMP_SIZE → ∀ x ∈ set_mode_trace t fuel a, (a ≤ x ∧ x ≤ t) ∨ (t ≤ x ∧ x ≤ a) := by
  intro fuel
  induction fuel with
  | zero => intro a _ x hx; simp [set_mode_trace] at hx
  | succ n ih =>
    intro a ha x hx
    have hb := (set_mode_tick_between t a ht ha).1
    have h64 : RAMP_SIZE = 64 := rfl
    have htl : set_mode_tick t a ≤ RAMP_SIZE := by omega
    rw [set_mode_trace_succ] at hx
    by_cases hne : t ≠ set_mode_tick t a
    · rw [if_pos hne] at hx
      rcases List.mem_cons.mp hx with hx1 | hx2
      · rw [hx1]; exact hb
      · have := ih (set_mode_tick t a) htl x hx2
        omega
    · rw [if_neg hne] at hx
      have hx1 : x = set_mode_tick t a := by simpa using hx
      rw [hx1]; exact hb

/-- C29: for every target and prior rendered level in 0..RAMP_SIZE, every
level `set_mode` renders lies between the prior level and the target,
both included, and every tick made with a non-zero difference strictly
reduces |target - actual|. -/
theorem set_mode_no_overshoot (t a : Nat) (ht : t ≤ RAMP_SIZE) (ha : a ≤ RAMP_SIZE) :
    (∀ x ∈ set_mode_trace t 256 a, min a t ≤ x ∧ x ≤ max a t)
    ∧ (∀ b, b ≤ RAMP_SIZE → b ≠ t →
        ((t : Int) - (set_mode_tick t b : Nat)).natAbs < ((t : Int) - b).natAbs)
    ∧ (∀ b, (min a t ≤ b ∧ b ≤ max a t) →
        min a t ≤ set_mode_tick t b ∧ set_mode_tick t b ≤ max a t) := by
  have h64 : RAMP_SIZE = 64 := rfl
  refine ⟨?_, fun b hb hne => (set_mode_tick_between t b ht hb).2 hne, ?_⟩
  · intro x hx
    have := set_mode_trace_between t ht 256 a ha x hx
    omega
  · intro b hb
    have := (set_mode_tick_between t b ht (by omega)).1
    omega

/-- A tick from level 8 toward the target 0 shortens the distance. -/
theorem set_mode_no_overshoot_witness :
    ((0 : Int) - (set_mode_tick 0 8 : Nat)).natAbs < ((0 : Int) - (8 : Nat)).natAbs :=
  (set_mode_no_overshoot 0 64 (by decide) (by decide)).2.1 8 (by decide) (by decide)

/-! ## Bounded regulation -/

/-- C22: one thermal iteration changes `actual_level` by at most 1.  It
lowers it only when `actual_level` is above RAMP_SIZE/8 = 8, so the lowered
level is never below 8, and it raises it only when `actual_level` is below
`output`, so `actual_level <= output` is preserved; `output` itself is not
changed. -/
theorem thermal_bounded (temp : Nat) (m : Main) (hb : m.actual_level < 256)
    (ho : m.output < 256) :
    ((thermal_step temp m).actual_level = m.actual_level
      ∨ (thermal_step temp m).actual_level + 1 = m.actual_level
      ∨ (thermal_step temp m).actual_level = m.actual_level + 1)
    ∧ ((thermal_step temp m).actual_level < m.actual_level →
        m.actual_level > RAMP_SIZE / 8 ∧ 8 ≤ (thermal_step temp m).actual_level)
    ∧ (m.actual_level < (thermal_step temp m).actual_level →
        m.actual_level < m.output ∧ (thermal_step temp m).actual_level ≤ m.output)
    ∧ (m.actual_level ≤ m.output →
        (thermal_step temp m).actual_level ≤ (thermal_step temp m).output)
    ∧ (thermal_step temp m).output = m.output
    ∧ RAMP_SIZE / 8 = 8 := by
  have h8 : RAMP_SIZE / 8 = 8 := rfl
  have hout : (thermal_step temp m).output = m.output := (thermal_step_g temp m).2.1
  have hlev : (thermal_step temp m).actual_level
      = (thermal_adjust temp (set_mode m.actual_level m)).actual_level := rfl
  rw [hout, hlev]
  have hcases : (thermal_adjust temp (set_mode m.actual_level m)).actual_level = m.actual_level
      ∨ ((thermal_adjust temp (set_mode m.actual_level m)).actual_level + 1 = m.actual_level
          ∧ m.actual_level > RAMP_SIZE / 8)
      ∨ ((thermal_adjust temp (set_mode m.actual_level m)).actual_level = m.actual_level + 1
          ∧ m.actual_level < m.output) := by
    unfold thermal_adjust
    split_ifs with c1 c2 c3
    · right; left
      have hl : m.actual_level > RAMP_SIZE / 8 := c2.2
      refine ⟨?_, hl⟩
      show u8 (m.actual_level + 255) + 1 = m.actual_level
      simp only [u8]; omega
    · left; rfl
    · right; right
      have hl : m.actual_level < m.output := c3.2
      refine ⟨?_, hl⟩
      show u8 (m.actual_level + 1) = m.actual_level + 1
      simp only [u8]; omega
    · left; rfl
  refine ⟨?_, ?_, ?_, ?_, rfl, h8⟩ <;> omega

/-- At level 9 with the count at 15, a hot sample lowers the level to 8. -/
theorem thermal_bounded_witness :
    8 ≤ (thermal_step 200
      { main_locals (boot (fun _ => 0xff)) 0 with actual_level := 9, output := 64,
                                                   overheat_count := 15 }).actual_level :=
  ((thermal_bounded 200
    { main_locals (boot (fun _ => 0xff)) 0 with actual_level := 9, output := 64,
                                                 overheat_count := 15 }
    (by decide) (by decide)).2.1 (by decide)).2

theorem battery_step_halts_low (ADC_LOW : Nat) (reading : Option Nat) (m : Main)
    (hh : m.halted = false) (hr : (battery_step ADC_LOW reading m).halted = true) :
    m.actual_level ≤ 1 := by
  cases reading with
  | none =>
    have : (battery_step ADC_LOW none m).halted = m.halted := rfl
    rw [this, hh] at hr
    exact absurd hr (by decide)
  | some v =>
    simp only [battery_step] at hr
    split_ifs at hr
    all_goals first
      | omega
      | (have hm : m.halted = true := hr
         rw [hh] at hm
         exact absurd hm (by decide))

/-- C23: for every solid level l in 2..RAMP_SIZE the battery step gives
(l>>2)+(l>>1), which is at least 1 and below l, so a step from such a level
never halts or switches the output off and repeated steps strictly decrease
down to level 1, reached in ten steps from level 64 and in at most ten from
any level; the branch that switches off and halts is taken only from a level
of 1 or less. -/
theorem battery_dim_graceful :
    (∀ l, 2 ≤ l → l ≤ RAMP_SIZE →
      battery_dim l = (l >>> 2) + (l >>> 1) ∧ 1 ≤ battery_dim l ∧ battery_dim l < l)
    ∧ Nat.iterate battery_dim 10 64 = 1
    ∧ (∀ n, n < 10 → 1 < Nat.iterate battery_dim n 64)
    ∧ (∀ l, 1 ≤ l → l ≤ RAMP_SIZE → ∃ n, n ≤ 10 ∧ Nat.iterate battery_dim n l = 1)
    ∧ (∀ (ADC_LOW v : Nat) (m : Main), v < ADC_LOW → m.lowbatt_cnt = 7 →
        2 ≤ m.actual_level → m.actual_level ≤ RAMP_SIZE →
        (battery_step ADC_LOW (some v) m).actual_level = battery_dim m.actual_level
        ∧ (battery_step ADC_LOW (some v) m).halted = m.halted)
    ∧ (∀ (ADC_LOW : Nat) (reading : Option Nat) (m : Main), m.halted = false →
        (battery_step ADC_LOW reading m).halted = true → m.actual_level ≤ 1) := by
  have h64 : RAMP_SIZE = 64 := rfl
  have hdim : ∀ l, 2 ≤ l → l ≤ RAMP_SIZE →
      battery_dim l = (l >>> 2) + (l >>> 1) ∧ 1 ≤ battery_dim l ∧ battery_dim l < l := by
    intro l h2 hl
    have e2 : l >>> 2 = l / 4 := by rw [Nat.shiftRight_eq_div_pow]
    have e1 : l >>> 1 = l / 2 := by rw [Nat.shiftRight_eq_div_pow, pow_one]
    have hlt : l / 4 + l / 2 < 256 := by omega
    have hd : battery_dim l = l / 4 + l / 2 := by
      simp only [battery_dim, u8, e1, e2, Nat.mod_eq_of_lt hlt]
    rw [hd, e1, e2]
    refine ⟨rfl, ?_, ?_⟩ <;> omega
  refine ⟨hdim, by decide, by decide, ?_, ?_, battery_step_halts_low⟩
  · intro l h1 hl
    have hl64 : l ≤ 64 := hl
    interval_cases l <;> decide
  · intro ADC_LOW v m hv hc h2 hl
    obtain ⟨-, e2, -⟩ := battery_step_eighth ADC_LOW v m hv hc
    rw [e2 (by omega) hl]
    exact ⟨(hdim m.actual_level h2 hl).1.symm, rfl⟩

/-- Level 2 steps down to level 1. -/
theorem battery_dim_graceful_witness : 1 ≤ battery_dim 2 ∧ battery_dim 2 < 2 :=
  (battery_dim_graceful.1 2 (by decide) (by decide)).2

/-! ## Configuration bytes and the rotating region -/

theorem restore_scan_le (e : Nat → Nat) : ∀ (fuel pos idx : Nat), pos ≤ EEPSIZE / 2 →
    (restore_scan e fuel pos idx).1 ≤ EEPSIZE / 2 := by
  intro fuel
  induction fuel with
  | zero => intro pos idx h; exact h
  | succ n ih =>
    intro pos idx h
    have h32 : EEPSIZE / 2 = 32 := rfl
    simp only [restore_scan]
    split_ifs with c1 c2
    · exact h
    · apply ih
      simp only [u8]
      omega
    · exact h

theorem restore_state_pos_le (s : State) : (restore_state s).g_u8eepos ≤ EEPSIZE / 2 := by
  have h32 : EEPSIZE / 2 = 32 := rfl
  unfold restore_state
  split_ifs
  · have hlt : (save_state s).g_u8eepos < EEPSIZE / 2 := save_mode_pos_lt s
    omega
  · exact restore_scan_le s.eeprom _ 0 _ (by omega)

/-- C25: the nine configuration addresses `OPT_firstboot` .. `OPT_muggle` are
EEPSIZE-1 down to EEPSIZE-9, pairwise distinct and outside the rotating
region; `restore_state` and `save_mode` leave `g_u8eepos` in 0..EEPSIZE/2;
and from every such position the two bytes `save_mode` writes are at
addresses different from all nine, so `save_mode` leaves every configuration
byte unchanged. -/
theorem save_mode_config_untouched :
    OPT_addresses = [EEPSIZE - 1, EEPSIZE - 2, EEPSIZE - 3, EEPSIZE - 4, EEPSIZE - 5,
      EEPSIZE - 6, EEPSIZE - 7, EEPSIZE - 8, EEPSIZE - 9]
    ∧ OPT_addresses.Nodup
    ∧ (∀ a ∈ OPT_addresses, EEPSIZE / 2 < a ∧ a < EEPSIZE)
    ∧ (∀ s : State, (restore_state s).g_u8eepos ≤ EEPSIZE / 2
        ∧ (save_mode s).g_u8eepos ≤ EEPSIZE / 2)
    ∧ (∀ s : State, s.g_u8eepos ≤ EEPSIZE / 2 → ∀ a ∈ OPT_addresses,
        (save_mode s).g_u8eepos ≠ a ∧ s.g_u8eepos ≠ a
        ∧ (save_mode s).eeprom a = s.eeprom a) := by
  have h32 : EEPSIZE / 2 = 32 := rfl
  have hmem : ∀ a ∈ OPT_addresses, EEPSIZE / 2 < a ∧ a < EEPSIZE := by decide
  refine ⟨rfl, by decide, hmem, ?_, ?_⟩
  · intro s
    have := save_mode_pos_lt s
    exact ⟨restore_state_pos_le s, by omega⟩
  · intro s hs a ha
    obtain ⟨h1, h2⟩ := hmem a ha
    have hp := save_mode_pos_lt s
    have hpe := save_mode_eepos s
    refine ⟨by omega, by omega, ?_⟩
    rw [save_mode_eeprom, if_neg (by omega), if_neg (by omega)]

/-- From position 32, which `restore_state` leaves when every slot is
erased, `save_mode` does not change the byte at `OPT_firstboot`. -/
theorem save_mode_config_untouched_witness :
    (save_mode { boot (fun _ => 0xff) with g_u8eepos := 32 }).eeprom OPT_firstboot
      = ({ boot (fun _ => 0xff) with g_u8eepos := 32 } : State).eeprom OPT_firstboot :=
  (save_mode_config_untouched.2.2.2.2 { boot (fun _ => 0xff) with g_u8eepos := 32 }
    (by decide) OPT_firstboot (by decide)).2.2

/-! ## Forward cycle -/

theorem mod_lt_two_mul (x n : Nat) (h : x < 2 * n) :
    x % n = if x < n then x else x - n := by
  split_ifs with c
  · exact Nat.mod_eq_of_lt c
  · rw [Nat.mod_eq_sub_mod (by omega), Nat.mod_eq_of_lt (by omega)]

/-- C30: for every `g_u8solid_modes` of at least 1 and every starting index
i below it, `g_u8solid_modes` calls of `next_mode` return the index to i, no
smaller positive number of calls does, and every solid index is the index
after exactly one of the first `g_u8solid_modes` calls. -/
theorem next_mode_period (s : State) (h1 : 1 ≤ s.g_u8solid_modes) (h2 : s.g_u8solid_modes < 256)
    (hi : s.g_u8mode_idx < s.g_u8solid_modes) :
    (Nat.iterate next_mode s.g_u8solid_modes s).g_u8mode_idx = s.g_u8mode_idx
    ∧ (∀ k, 0 < k → k < s.g_u8solid_modes →
        (Nat.iterate next_mode k s).g_u8mode_idx ≠ s.g_u8mode_idx)
    ∧ (∀ j, j < s.g_u8solid_modes →
        ∃ k, 1 ≤ k ∧ k ≤ s.g_u8solid_modes ∧ (Nat.iterate next_mode k s).g_u8mode_idx = j
          ∧ ∀ k2, 1 ≤ k2 → k2 ≤ s.g_u8solid_modes →
              (Nat.iterate next_mode k2 s).g_u8mode_idx = j → k2 = k) := by
  have hidx : ∀ k, k ≤ s.g_u8solid_modes → (Nat.iterate next_mode k s).g_u8mode_idx
      = if s.g_u8mode_idx + k < s.g_u8solid_modes then s.g_u8mode_idx + k
        else s.g_u8mode_idx + k - s.g_u8solid_modes := by
    intro k hk
    rw [next_mode_iterate s hi h2 k]
    exact mod_lt_two_mul _ _ (by omega)
  refine ⟨?_, ?_, ?_⟩
  · rw [hidx _ (le_refl _)]
    split_ifs <;> omega
  · intro k h0 hk
    rw [hidx k (by omega)]
    split_ifs <;> omega
  · intro j hj
    by_cases hc : s.g_u8mode_idx < j
    · refine ⟨j - s.g_u8mode_idx, by omega, by omega, ?_, ?_⟩
      · rw [hidx _ (by omega)]
        split_ifs <;> omega
      · intro k2 hk1 hk2 he
        rw [hidx k2 hk2] at he
        split_ifs at he <;> omega
    · refine ⟨j + s.g_u8solid_modes - s.g_u8mode_idx, by omega, by omega, ?_, ?_⟩
      · rw [hidx _ (by omega)]
        split_ifs <;> omega
      · intro k2 hk1 hk2 he
        rw [hidx k2 hk2] at he
        split_ifs at he <;> omega

/-- Seven steps forward from index 3 in the default configuration. -/
theorem next_mode_period_witness :
    (Nat.iterate next_mode 7
      { count_modes flash_declared_order (boot (fun _ => 0xff)) with
        g_u8mode_idx := 3 }).g_u8mode_idx = 3 :=
  (next_mode_period
    { count_modes flash_declared_order (boot (fun _ => 0xff)) with g_u8mode_idx := 3 }
    (by decide) (by decide) (by decide)).1

/-! ## The single-slot guarantee across `restore_state` -/

/-- On its normal path `restore_state` does not write the store, so the
rotating region keeps whatever slots it had. -/
theorem restore_state_normal_slots (s : State) (hs : s.eeprom OPT_firstboot = FIRSTBOOT)
    (h1 : at_most_one_slot s.eeprom) : at_most_one_slot (restore_state s).eeprom := by
  rw [(restore_state_fields s hs).2.2.2.2.2.2.2.2.2]
  exact h1

/-- On its first-boot path `restore_state` keeps the guarantee when the
region is blank or its one non-erased slot is slot 0 or slot 1, the two
slots that `save_mode` rewrites from position 0. -/
theorem restore_state_first_boot_slots (e : Nat → Nat) (hs : e OPT_firstboot ≠ FIRSTBOOT)
    (h1 : ∀ a, a < EEPSIZE / 2 → 2 ≤ a → e a = 0xff) :
    at_most_one_slot (restore_state (boot e)).eeprom := by
  have h32 : EEPSIZE / 2 = 32 := rfl
  have hcell : ∀ a, a < EEPSIZE / 2 → a ≠ 1 → (restore_state (boot e)).eeprom a = 0xff := by
    intro a ha hne
    rw [restore_state_first_boot _ hs, save_state_eeprom_low _ a ha, save_mode_eeprom]
    show (if a = 0 then 0xff else if a = (0 + 1) % 32 then 0 else e a) = 0xff
    by_cases c1 : a = 0
    · rw [if_pos c1]
    · have c2 : ¬ a = (0 + 1) % 32 := by omega
      rw [if_neg c1, if_neg c2]
      exact h1 a ha (by omega)
  intro a ha b hb hae hbe
  have ha1 : a = 1 := by
    by_contra hc
    exact hae (hcell a ha hc)
  have hb1 : b = 1 := by
    by_contra hc
    exact hbe (hcell b hb hc)
  rw [ha1, hb1]

set_option maxRecDepth 20000 in
/-- C24, evaluation at the failing input: the store left by cutting power in
the acceptance window of the first-boot option has an invalid sentinel and
one non-erased slot, slot 17; `restore_state` on the next boot takes the
first-boot path, which saves from position 0 without scanning, and leaves
two non-erased slots, 1 and 17. -/
theorem first_boot_stale_slot :
    at_most_one_slot factory_reset_store
    ∧ factory_reset_store 17 = 0
    ∧ factory_reset_store OPT_firstboot = 0x54
    ∧ (restore_state (boot factory_reset_store)).eeprom 1 = 0
    ∧ (restore_state (boot factory_reset_store)).eeprom 17 = 0
    ∧ ¬ at_most_one_slot (restore_state (boot factory_reset_store)).eeprom := by
  refine ⟨by unfold at_most_one_slot; decide, by decide, by decide, by decide, by decide, ?_⟩
  intro h
  have h1 : (restore_state (boot factory_reset_store)).eeprom 1 ≠ 0xff := by decide
  have h17 : (restore_state (boot factory_reset_store)).eeprom 17 ≠ 0xff := by decide
  have := h 1 (by decide) 17 (by decide) h1 h17
  omega

/-! ## Buffer bounds and displayable entries -/

set_option maxHeartbeats 4000000 in
/-- The cells `count_modes` writes outside muggle mode, for each of the nine
groups: all below 13. -/
theorem count_modes_writes_spec (past : Nat → Nat) (g moon rev : Nat) (m : Nat → Nat) (a b : Nat)
    (hg : g ≤ 8) :
    ∀ i ∈ count_modes_writes past g moon rev 0 m a b, i < 13 := by
  by_cases hmoon : moon = 0 <;> by_cases hrev : rev = 0 <;> interval_cases g <;>
    simp [count_modes_writes, count_solid, copy_hidden, reverse_copy, count_solid_writes,
      copy_hidden_writes, reverse_copy_writes, pgm_modegroups, modegroups, hiddenmodes, u8,
      hmoon, hrev, POLICE_STROBE, BIKING_STROBE, BATTCHECK]

/-- The cells `count_modes` writes in muggle mode: 0..6. -/
theorem count_modes_writes_muggle (past : Nat → Nat) (g moon rev mug : Nat) (m : Nat → Nat)
    (a b : Nat) (hmug : mug ≠ 0) :
    count_modes_writes past g moon rev mug m a b = [0, 1, 2, 3, 4, 5, 6] := by
  simp [count_modes_writes, count_solid, copy_hidden, reverse_copy, count_solid_writes,
      copy_hidden_writes, reverse_copy_writes, pgm_modegroups, modegroups, hiddenmodes, u8,
      hmug, NUM_MODEGROUPS]

theorem count_solid_untouched : ∀ (fuel : Nat) (b : ModeBuf) (j : Nat),
    j ∉ count_solid_writes fuel b → (count_solid fuel b).g_u8modes j = b.g_u8modes j := by
  intro fuel
  induction fuel with
  | zero => intro b j _; rfl
  | succ n ih =>
    intro b j hj
    simp only [count_solid, count_solid_writes] at hj ⊢
    split_ifs at hj ⊢ with c
    · obtain ⟨h1, h2⟩ := not_or.mp (fun h => hj (List.mem_cons.mpr h))
      rw [ih _ j h2]
      simp only [poke, if_neg h1]
    · rfl

theorem copy_hidden_untouched (past : Nat → Nat) : ∀ (fuel : Nat) (b : ModeBuf) (j : Nat),
    j ∉ copy_hidden_writes past fuel b → (copy_hidden past fuel b).g_u8modes j = b.g_u8modes j := by
  intro fuel
  induction fuel with
  | zero => intro b j _; rfl
  | succ n ih =>
    intro b j hj
    simp only [copy_hidden, copy_hidden_writes] at hj ⊢
    split_ifs at hj ⊢ with c
    · obtain ⟨h1, h2⟩ := not_or.mp (fun h => hj (List.mem_cons.mpr h))
      rw [ih _ j h2]
      simp only [poke, if_neg h1]
    · rfl

theorem reverse_copy_untouched (past : Nat → Nat) : ∀ (fuel i : Nat) (b : ModeBuf) (j : Nat),
    j ∉ reverse_copy_writes past fuel i b →
    (reverse_copy past fuel i b).g_u8modes j = b.g_u8modes j := by
  intro fuel
  induction fuel with
  | zero => intro i b j _; rfl
  | succ n ih =>
    intro i b j hj
    simp only [reverse_copy, reverse_copy_writes] at hj ⊢
    split_ifs at hj ⊢ with c
    · obtain ⟨h1, h2⟩ := not_or.mp (fun h => hj (List.mem_cons.mpr h))
      rw [ih _ _ j h2]
      simp only [poke, if_neg h1]
    · rfl

set_option maxHeartbeats 4000000 in
/-- The list of written cells is complete: a cell that is not in it holds
after `count_modes` what it held before. -/
theorem count_modes_writes_complete (past : Nat → Nat) (g moon rev mug : Nat) (m : Nat → Nat)
    (a b j : Nat) (hj : j ∉ count_modes_writes past g moon rev mug m a b) :
    (count_modes_body past g moon rev mug m a b).g_u8modes j = m j := by
  simp only [count_modes_writes, count_modes_body] at hj ⊢
  generalize (if mug ≠ 0 then NUM_MODEGROUPS else g) = G at hj ⊢
  generalize (if mug ≠ 0 then 0 else moon) = M at hj ⊢
  generalize (if mug ≠ 0 then 0 else rev) = R at hj ⊢
  by_cases hM : M = 0 <;> by_cases hR : R = 0
  · simp only [hM, hR, ne_eq, not_true_eq_false, if_false, List.nil_append, List.append_nil,
      List.mem_append, not_or] at hj ⊢
    obtain ⟨h1, h2⟩ := hj
    try dsimp only
    rw [copy_hidden_untouched past _ _ j h2]
    try dsimp only
    rw [count_solid_untouched _ _ j h1]
  · simp only [hM, hR, ne_eq, not_true_eq_false, not_false_eq_true, if_false, if_true,
      List.nil_append, List.append_nil, List.mem_append, not_or] at hj ⊢
    obtain ⟨⟨h1, h2⟩, h3⟩ := hj
    try dsimp only
    rw [reverse_copy_untouched past _ _ _ j h3]
    try dsimp only
    rw [copy_hidden_untouched past _ _ j h2]
    try dsimp only
    rw [count_solid_untouched _ _ j h1]
  · simp only [hM, hR, ne_eq, not_true_eq_false, not_false_eq_true, if_false, if_true,
      List.nil_append, List.append_nil, List.mem_append, List.mem_singleton, not_or] at hj ⊢
    obtain ⟨⟨h0, h1⟩, h2⟩ := hj
    try dsimp only
    rw [copy_hidden_untouched past _ _ j h2]
    try dsimp only
    rw [count_solid_untouched _ _ j h1]
    simp only [poke, if_neg h0]
  · simp only [hM, hR, ne_eq, not_true_eq_false, not_false_eq_true, if_false, if_true,
      List.nil_append, List.append_nil, List.mem_append, List.mem_singleton, not_or] at hj ⊢
    obtain ⟨⟨⟨h0, h1⟩, h2⟩, h3, h4⟩ := hj
    try dsimp only
    simp only [poke, if_neg h4]
    rw [reverse_copy_untouched past _ _ _ j h3]
    try dsimp only
    rw [copy_hidden_untouched past _ _ j h2]
    try dsimp only
    rw [count_solid_untouched _ _ j h1]
    simp only [poke, if_neg h0]

/-- C27: for every mode group 0..8 and every setting of `enable_moon`,
`reverse_modes` and `muggle_mode`, every write `count_modes` makes into
`g_u8modes` is at an index below the array size 9 + 4 = 13 (so no cell at
index 13 or above is changed), and the resulting `g_u8mode_cnt` is at most
13. -/
theorem count_modes_buffer_bounds (past : Nat → Nat) (s : State) (hg : s.g_u8modegroup ≤ 8) :
    g_u8modes_size = 13 ∧
    (∀ i ∈ count_modes_writes past s.g_u8modegroup s.enable_moon s.reverse_modes s.muggle_mode
        s.g_u8modes s.g_u8solid_modes s.g_u8mode_cnt, i < g_u8modes_size) ∧
    (∀ j, g_u8modes_size ≤ j → (count_modes past s).g_u8modes j = s.g_u8modes j) ∧
    (count_modes past s).g_u8mode_cnt ≤ g_u8modes_size := by
  have hsize : g_u8modes_size = 13 := by decide
  have hw : ∀ i ∈ count_modes_writes past s.g_u8modegroup s.enable_moon s.reverse_modes
      s.muggle_mode s.g_u8modes s.g_u8solid_modes s.g_u8mode_cnt, i < g_u8modes_size := by
    intro i hi
    rw [hsize]
    by_cases hmug : s.muggle_mode = 0
    · rw [hmug] at hi
      exact count_modes_writes_spec past _ _ _ _ _ _ hg i hi
    · rw [count_modes_writes_muggle past _ _ _ _ _ _ _ hmug] at hi
      simp only [List.mem_cons, List.mem_singleton, List.not_mem_nil, or_false] at hi
      omega
  refine ⟨hsize, hw, ?_, ?_⟩
  · intro j hj
    show (count_modes_body past s.g_u8modegroup s.enable_moon s.reverse_modes s.muggle_mode
      s.g_u8modes s.g_u8solid_modes s.g_u8mode_cnt).g_u8modes j = s.g_u8modes j
    apply count_modes_writes_complete
    intro hmem
    have := hw j hmem
    omega
  · have h := (count_modes_counts past s hg).2
    have hb := solid_count_bounds (effective_group s) (effective_group_le s hg)
    rw [h, hsize]
    split_ifs <;> omega

/-- Group 5 (six solid modes) with moon and reversal on: the forward pass
writes cells 0..10 and the reverse pass cells 0..6. -/
theorem count_modes_buffer_bounds_witness :
    count_modes_writes flash_declared_order 5 1 1 0 (fun _ => 0) 0 0
      = [0, 1, 2, 3, 4, 5, 6, 7, 8, 9, 10, 0, 1, 2, 3, 4, 5, 6] ∧
    (count_modes flash_declared_order
      { boot (fun _ => 0xff) with g_u8modegroup := 5, enable_moon := 1,
                                  reverse_modes := 1 }).g_u8mode_cnt
      ≤ g_u8modes_size :=
  ⟨by decide,
   (count_modes_buffer_bounds flash_declared_order
      { boot (fun _ => 0xff) with g_u8modegroup := 5, enable_moon := 1,
                                  reverse_modes := 1 } (by decide)).2.2.2⟩

/-! ## Entries of the mode list -/

theorem solid_levels_displayable (g : Nat) (hg : g ≤ 9) :
    ∀ x ∈ solid_levels g, displayable x = true := by
  interval_cases g <;> decide

/-- With reversal not in force, every entry of the list built by
`count_modes` is a level in 1..RAMP_SIZE or an effect code of the main loop. -/
theorem count_modes_entries_displayable (past : Nat → Nat) (s : State)
    (hg : s.g_u8modegroup ≤ 8) (hrev : effective_reverse s = false) :
    ∀ x ∈ ActiveModeList (count_modes past s), displayable x = true := by
  intro x hx
  rw [count_modes_list] at hx
  by_cases hmug : s.muggle_mode = 0
  · have hr : s.reverse_modes = 0 := by
      simpa [effective_reverse, hmug] using hrev
    have h := (count_modes_body_spec past s.g_u8modegroup s.enable_moon s.reverse_modes
      s.g_u8modes s.g_u8solid_modes s.g_u8mode_cnt hg).2.2
    rw [hmug, h, hr] at hx
    simp only [ne_eq, not_true_eq_false, if_false, List.mem_append] at hx
    rcases hx with (hx | hx) | hx
    · split_ifs at hx
      · exact absurd hx (List.not_mem_nil x)
      · rw [List.mem_singleton.mp hx]
        decide
    · exact solid_levels_displayable _ (by omega) x hx
    · revert x
      decide
  · have h := (count_modes_body_muggle past s.g_u8modegroup s.enable_moon s.reverse_modes
      s.muggle_mode s.g_u8modes s.g_u8solid_modes s.g_u8mode_cnt hmug).2.2
    rw [h] at hx
    revert x
    decide

/-- C28: the property fails with reversal on.  Group 3 with moon and
reversal enabled and `modegroups` placed right after `hiddenmodes` in flash:
the list has eight entries and the entry at index 0 is 0, neither a level in
1..RAMP_SIZE nor an effect code.  Whatever the flash layout, that entry is the
byte found three places past the end of `hiddenmodes`, not a level of the
group. -/
theorem count_modes_reverse_entry_out_of_range :
    (count_modes flash_declared_order
        { boot (fun _ => 0xff) with g_u8modegroup := 3, reverse_modes := 1 }).g_u8mode_cnt = 8
    ∧ (count_modes flash_declared_order
        { boot (fun _ => 0xff) with g_u8modegroup := 3, reverse_modes := 1 }).g_u8modes 0 = 0
    ∧ displayable ((count_modes flash_declared_order
        { boot (fun _ => 0xff) with g_u8modegroup := 3, reverse_modes := 1 }).g_u8modes 0) = false
    ∧ ∀ past : Nat → Nat,
        (count_modes past
          { boot (fun _ => 0xff) with g_u8modegroup := 3, reverse_modes := 1 }).g_u8modes 0
            = past 3 := by
  refine ⟨by decide, by decide, by decide, fun past => rfl⟩

/-! ## Group-selection sub-mode -/

/-- One `save_state`: the position moves to the next slot, which receives the
mode index, the variables keep their values, and a rotating region with no
other non-erased slot stays so. -/
theorem save_state_slot (s : State) :
    (save_state s).g_u8eepos = (s.g_u8eepos + 1) % 32
    ∧ (save_state s).g_u8firstboot = s.g_u8firstboot
    ∧ (save_state s).g_u8mode_idx = s.g_u8mode_idx
    ∧ (save_state s).g_u8mode_override = s.g_u8mode_override
    ∧ (save_state s).eeprom ((s.g_u8eepos + 1) % 32) = s.g_u8mode_idx
    ∧ (erased_except s.eeprom s.g_u8eepos →
        erased_except (save_state s).eeprom ((s.g_u8eepos + 1) % 32)) := by
  have h32 : EEPSIZE / 2 = 32 := rfl
  have hpos : (save_state s).g_u8eepos = (s.g_u8eepos + 1) % 32 := save_mode_eepos s
  have hne : (s.g_u8eepos + 1) % 32 ≠ s.g_u8eepos := by omega
  refine ⟨hpos, rfl, rfl, rfl, ?_, ?_⟩
  · rw [save_state_eeprom_low s _ (by omega), save_mode_eeprom, if_neg hne, if_pos rfl]
  · intro he a ha hap
    have h2 := (save_mode_slots s he).2 a ha
    rw [save_mode_eepos] at h2
    rw [save_state_eeprom_low s a ha]
    exact h2 hap

/-- Booting on a store that holds the sentinel: the configuration comes from
the option bytes, and the mode index from slot `p` when it is the one
non-erased slot. -/
theorem restore_boot_store (e : Nat → Nat) (hfb : e OPT_firstboot = FIRSTBOOT) :
    (restore_state (boot e)).g_u8modegroup = e OPT_modegroup
    ∧ (restore_state (boot e)).g_u8mode_override = e OPT_mode_override
    ∧ ∀ p, p < EEPSIZE / 2 → e p ≠ 0xff → erased_except e p →
        (restore_state (boot e)).g_u8mode_idx = e p := by
  have hf := restore_state_fields (boot e) hfb
  refine ⟨hf.2.1, hf.2.2.2.2.2.1, ?_⟩
  intro p hp hv he
  exact (restore_state_idx (boot e) p hp hfb hv he).1

/-- The loop does not run out of fuel: `NUM_MODEGROUPS - i` passes are
enough, more change nothing. -/
theorem group_select_loop_fuel (k : Nat) : ∀ (fuel i : Nat) (m : Main),
    NUM_MODEGROUPS - i ≤ fuel →
    group_select_loop (fuel + k) i m = group_select_loop fuel i m := by
  intro fuel
  induction fuel with
  | zero =>
    intro i m h
    have hi : ¬ i < NUM_MODEGROUPS := by omega
    cases k with
    | zero => rfl
    | succ k => simp only [Nat.zero_add, group_select_loop, if_neg hi]
  | succ n ih =>
    intro i m h
    have e : n + 1 + k = (n + k) + 1 := by omega
    rw [e]
    simp only [group_select_loop]
    by_cases hi : i < NUM_MODEGROUPS
    · have hN : NUM_MODEGROUPS = 9 := rfl
      have hu : u8 (i + 1) = i + 1 := by
        simp only [u8]
        omega
      rw [if_pos hi, if_pos hi, ih (u8 (i + 1)) _ (by rw [hu]; omega)]
    · rw [if_neg hi, if_neg hi]

/-- The stores left by the passes of the loop entered at `i` with mode index
and override zero: pass `j` stores group `i + j`, override 0 and the sentinel,
and writes mode index 0 into slot `g_u8eepos + j + 1` (modulo 32), which is
the one non-erased slot when the region had only slot `g_u8eepos` before. -/
theorem group_select_loop_spec : ∀ (fuel i : Nat) (m : Main),
    i + fuel = NUM_MODEGROUPS →
    m.g.g_u8firstboot = FIRSTBOOT → m.g.g_u8mode_idx = 0 → m.g.g_u8mode_override = 0 →
    (group_select_loop fuel i m).1.length = fuel
    ∧ ∀ j, j < fuel → ∃ e, (group_select_loop fuel i m).1[j]? = some e
        ∧ e OPT_modegroup = i + j ∧ e OPT_mode_override = 0 ∧ e OPT_firstboot = FIRSTBOOT
        ∧ e ((m.g.g_u8eepos + j + 1) % 32) = 0
        ∧ (erased_except m.g.eeprom m.g.g_u8eepos →
            erased_except e ((m.g.g_u8eepos + j + 1) % 32)) := by
  intro fuel
  induction fuel with
  | zero =>
    intro i m _ _ _ _
    exact ⟨rfl, fun j hj => absurd hj (Nat.not_lt_zero j)⟩
  | succ n ih =>
    intro i m hfuel hfb hidx hov
    have hN : NUM_MODEGROUPS = 9 := rfl
    have hi : i < NUM_MODEGROUPS := by omega
    have hu : u8 (i + 1) = i + 1 := by
      simp only [u8]
      omega
    obtain ⟨spos, sfb, sidx, sov, sslot, ser⟩ := save_state_slot { m.g with g_u8modegroup := i }
    obtain ⟨-, o2, -, -, -, o6, -, -, -⟩ := save_state_eeprom_opt { m.g with g_u8modegroup := i }
    obtain ⟨o1, -⟩ := save_state_eeprom_opt { m.g with g_u8modegroup := i }
    have hg : (blink 1 { m with g := save_state { m.g with g_u8modegroup := i } }).g
        = save_state { m.g with g_u8modegroup := i } := blink_g 1 _
    obtain ⟨ihlen, ihj⟩ := ih (u8 (i + 1))
      (blink 1 { m with g := save_state { m.g with g_u8modegroup := i } })
      (by rw [hu]; omega) (by rw [hg, sfb]; exact hfb) (by rw [hg, sidx]; exact hidx)
      (by rw [hg, sov]; exact hov)
    simp only [group_select_loop, if_pos hi]
    refine ⟨by rw [List.length_cons, ihlen], ?_⟩
    intro j hj
    cases j with
    | zero =>
      refine ⟨(save_state { m.g with g_u8modegroup := i }).eeprom, List.getElem?_cons_zero,
        o2, ?_, ?_, ?_, ?_⟩
      · rw [o6]; exact hov
      · rw [o1]; exact hfb
      · rw [sslot]; exact hidx
      · exact ser
    | succ j =>
      obtain ⟨e, he, hgrp, hovr, hfbt, hslot, hers⟩ := ihj j (by omega)
      rw [hg, spos] at hslot hers
      have hp : ∀ p : Nat, ((p + 1) % 32 + j + 1) % 32 = (p + (j + 1) + 1) % 32 := by
        intro p
        omega
      have hp2 := hp m.g.g_u8eepos
      simp only [] at hp2
      refine ⟨e, ?_, ?_, hovr, hfbt, ?_, ?_⟩
      · rw [List.getElem?_cons_succ]; exact he
      · rw [hgrp, hu]; omega
      · rw [← hp2]; exact hslot
      · intro her
        rw [← hp2]
        exact hers (ser her)

/-- C26: one pass of the GROUP_SELECT_MODE branch calls `save_state`
`NUM_MODEGROUPS` times; the k-th store (counting from 0) holds group k, so the
groups 0, 1, ..., NUM_MODEGROUPS-1 are persisted in this order, each once and
each below `NUM_MODEGROUPS`; every one of these stores holds override 0 and
has mode index 0 in the slot just written; and a boot on the k-th store
selects group k with the override off and, when the rotating region had no
non-erased slot other than `g_u8eepos` on entry, with mode index 0. -/
theorem group_select_persists (m : Main) (hfb : m.g.g_u8firstboot = FIRSTBOOT) :
    (group_select m).1.length = NUM_MODEGROUPS
    ∧ (group_select m).1.map (fun e => e OPT_modegroup) = List.range NUM_MODEGROUPS
    ∧ ∀ k, k < NUM_MODEGROUPS → ∃ e, (group_select m).1[k]? = some e
        ∧ e OPT_modegroup = k ∧ e OPT_mode_override = 0
        ∧ e ((m.g.g_u8eepos + k + 1) % 32) = 0
        ∧ (restore_state (boot e)).g_u8modegroup = k
        ∧ (restore_state (boot e)).g_u8mode_override = 0
        ∧ (erased_except m.g.eeprom m.g.g_u8eepos →
            (restore_state (boot e)).g_u8mode_idx = 0) := by
  have hN : NUM_MODEGROUPS = 9 := rfl
  obtain ⟨hlen, hall⟩ := group_select_loop_spec NUM_MODEGROUPS 0
    { m with g := { m.g with g_u8mode_idx := 0, g_u8mode_override := 0 } }
    (by omega) hfb rfl rfl
  have hk : ∀ k, k < NUM_MODEGROUPS → ∃ e, (group_select m).1[k]? = some e
        ∧ e OPT_modegroup = k ∧ e OPT_mode_override = 0
        ∧ e ((m.g.g_u8eepos + k + 1) % 32) = 0
        ∧ (restore_state (boot e)).g_u8modegroup = k
        ∧ (restore_state (boot e)).g_u8mode_override = 0
        ∧ (erased_except m.g.eeprom m.g.g_u8eepos →
            (restore_state (boot e)).g_u8mode_idx = 0) := by
    intro k hk
    obtain ⟨e, he, hgrp, hovr, hfbt, hslot, hers⟩ := hall k hk
    obtain ⟨r1, r2, r3⟩ := restore_boot_store e hfbt
    refine ⟨e, he, ?_, hovr, hslot, ?_, ?_, ?_⟩
    · rw [hgrp]; omega
    · rw [r1, hgrp]; omega
    · rw [r2, hovr]
    · intro her
      have h32 : EEPSIZE / 2 = 32 := rfl
      have := r3 ((m.g.g_u8eepos + k + 1) % 32) (by omega)
        (by rw [hslot]; decide) (hers her)
      rw [this, hslot]
  have hlen2 : (group_select m).1.length = NUM_MODEGROUPS := hlen
  refine ⟨hlen2, ?_, hk⟩
  apply List.ext_getElem?
  intro k
  by_cases hkn : k < NUM_MODEGROUPS
  · obtain ⟨e, he, hgrp, -⟩ := hk k hkn
    rw [List.getElem?_map, he, List.getElem?_range hkn, Option.map_some', hgrp]
  · rw [List.getElem?_eq_none (by rw [List.length_map, hlen2]; omega),
      List.getElem?_eq_none (by rw [List.length_range]; omega)]

/-- From a freshly booted device on a blank store, after `restore_state`:
the fourth store of the pass holds group 3, and a boot on it selects group 3
with the override off and mode index 0. -/
theorem group_select_persists_witness :
    (main_locals (restore_state (boot (fun _ => 0xff))) 0).g.g_u8firstboot = FIRSTBOOT
    ∧ ∃ e, (group_select (main_locals (restore_state (boot (fun _ => 0xff))) 0)).1[3]? = some e
        ∧ e OPT_modegroup = 3 ∧ e OPT_mode_override = 0
        ∧ (restore_state (boot e)).g_u8modegroup = 3
        ∧ (restore_state (boot e)).g_u8mode_override = 0
        ∧ (restore_state (boot e)).g_u8mode_idx = 0 := by
  refine ⟨by decide, ?_⟩
  obtain ⟨e, he, h1, h2, -, h4, h5, h6⟩ :=
    (group_select_persists (main_locals (restore_state (boot (fun _ => 0xff))) 0)
      (by decide)).2.2 3 (by decide)
  exact ⟨e, he, h1, h2, h4, h5, h6 (by unfold erased_except; decide)⟩

end Bistro
